import Mathlib

/-!
# ghostToHugo: `lib/post.go`

A shallow embedding of the post conversion core of ghostToHugo (the card
renderers, `populate`, `mobiledocMarkdown`, `path`, `metadata`,
`stripContentFolder`) together with the properties of the natural-language
specification that were checked against it.

Modelling conventions.

* A Go `string` is a Lean `String`.  The strings handled here come out of a JSON
  decoder and every literal the code compares against is ASCII, so taking a
  byte prefix and taking a character prefix agree.
* A Go `interface{}` holding a decoded JSON document is a `Value`.
* A `map[string]interface{}` is an association list read with `List.lookup`;
  a map built by assignments is a `GoMap` written with `GoMap.set`.
* A failed single-valued type assertion `x.(T)` panics; a renderer therefore
  returns an `Outcome`, which is either a returned string or a panic, each with
  the diagnostics written to the process log so far.
* `json.RawMessage` is a list of bytes and `bytes.Equal` is equality of lists.
* A `bytes.Buffer` is the string written so far; `WriteString` appends to it.
* The document-walking engine, the site and the configuration are external:
  the engine is an abstract function of the document and the renderers
  registered on it, `path.Join` is described on path segments.
-/

namespace ghostToHugo

/-! ## Dynamically typed values -/

/-- A value of Go type `interface{}` as produced by `encoding/json`:
`nil`, `bool`, `float64`, `string`, `[]interface{}` or `map[string]interface{}`. -/
inductive Value where
  | null
  | bool (b : Bool)
  | num (x : Rat)
  | str (s : String)
  | arr (xs : List Value)
  | obj (kvs : List (String × Value))

/-- The two-valued assertion `v.(map[string]interface{})`. -/
def Value.asMap : Value → Option (List (String × Value))
  | .obj kvs => some kvs
  | _ => none

/-- The assertion `v.(string)`; `none` is the failed assertion. -/
def Value.asString : Value → Option String
  | .str s => some s
  | _ => none

/-- The comparison `v != nil` of an interface value. -/
def Value.isNil : Value → Bool
  | .null => true
  | _ => false

/-- The formatting primitives of the standard `fmt` package that the renderers
rely on, taken as parameters: `%s` applied to an operand that is not a string
(the `%!s(...)` forms), `%q` applied to a string and `%.0f` applied to a
number. -/
structure Fmt where
  verbS : Value → String
  verbQ : String → String
  verbF0 : Rat → String

/-- The verb `%s` of `fmt.Sprintf` applied to an interface operand: a string
operand is copied, any other operand is rendered by the library. -/
def Fmt.sprintS (f : Fmt) : Value → String
  | .str s => s
  | v => f.verbS v

/-- What running a renderer does: it returns a string or it panics, and in both
cases it may have written diagnostics to the log. -/
inductive Outcome where
  | ret (out : String) (log : List String)
  | panic (log : List String)
  deriving DecidableEq, Repr

/-- The string a renderer returned; `none` when it panicked. -/
def Outcome.value : Outcome → Option String
  | .ret out _ => some out
  | .panic _ => none

/-- The diagnostics a renderer wrote to the log. -/
def Outcome.diagnostics : Outcome → List String
  | .ret _ log => log
  | .panic log => log

/-! ## Library string and byte functions -/

/-- The function `strings.HasPrefix`. -/
def strings.HasPrefix (s pre : String) : Bool :=
  pre.data.isPrefixOf s.data

/-- The function `strings.TrimPrefix`: `s` without the leading `pre` when `s`
starts with it, `s` itself otherwise. -/
def strings.TrimPrefix (s pre : String) : String :=
  if strings.HasPrefix s pre then ⟨s.data.drop pre.data.length⟩ else s

/-- A `json.RawMessage`. -/
abbrev RawMessage := List UInt8

/-- The function `bytes.Equal`. -/
def bytes.Equal (a b : RawMessage) : Bool :=
  a == b

/-! ## Card renderers -/

def stripContentFolder (originalString : String) : String :=
  strings.TrimPrefix originalString "/content"

def cardHTML (payload : Value) : Outcome :=
  match payload.asMap with
  | none => .ret "" []
  | some m =>
    match m.lookup "html" with
    | some html =>
      match html.asString with
      | some s => .ret s []
      | none => .panic []
    | none => .ret "" []

def cardCode (payload : Value) : Outcome :=
  match payload.asMap with
  | none => .ret "" []
  | some m =>
    -- the buffer writes; `none` is a failed `.(string)` assertion
    let written : Option String := do
      let buf := ""
      let buf := buf ++ "```"
      let buf ← match m.lookup "language" with
        | some lang => do pure (buf ++ (← lang.asString))
        | none => pure buf
      let buf := buf ++ "\n"
      -- `m["code"]` is the nil interface when the key is absent
      let buf := buf ++ (← ((m.lookup "code").getD .null).asString)
      let buf := buf ++ "\n```\n"
      pure buf
    match written with
    | some s => .ret s []
    | none => .panic []

def cardImage (f : Fmt) (payload : Value) : Outcome :=
  match payload.asMap with
  | none => .ret "" []
  | some m =>
    match m.lookup "src" with
    | none => .ret "" ["ERROR image card missing source"]
    | some src =>
      match m.lookup "caption" with
      | some caption =>
        .ret ("\x7b\x7b< figure src=\"" ++ f.sprintS src ++ "\" caption=\""
          ++ f.sprintS caption ++ "\" >\x7d\x7d\n") []
      | none => .ret ("\x7b\x7b< figure src=\"" ++ f.sprintS src ++ "\" >\x7d\x7d\n") []

def atomSoftReturn (_value : String) (_payload : Value) : String :=
  "\n"

def cardMarkdown (payload : Value) : Outcome :=
  match payload.asMap with
  | none => .ret "" []
  | some m =>
    match m.lookup "markdown" with
    | some markdown =>
      match markdown.asString with
      | some s => .ret (s ++ "\n") []
      | none => .panic []
    | none => .ret "" []

def cardHR (_payload : Value) : Outcome :=
  .ret "---\n" []

def cardEmbed (payload : Value) : Outcome :=
  match payload.asMap with
  | none => .ret "" []
  | some m =>
    match m.lookup "html" with
    | none => .ret "" ["ERROR embed card missing html"]
    | some html =>
      match html.asString with
      | some s => .ret s []
      | none => .panic []

/-- The assertion `v.([]interface{})`; `none` is the failed assertion. -/
def Value.asSlice : Value → Option (List Value)
  | .arr xs => some xs
  | _ => none

/-- The assertion `v.(float64)`; `none` is the failed assertion. -/
def Value.asFloat64 : Value → Option Rat
  | .num x => some x
  | _ => none

/-- The index expression `m[k]` without presence flag: the nil interface when
the key is absent. -/
def Value.index (m : List (String × Value)) (k : String) : Value :=
  (m.lookup k).getD .null

/-- The writes of one pass of the loop of `cardGallery` for an entry that is
an object; `none` is a failed assertion. -/
def cardGallery.image (f : Fmt) (image : List (String × Value)) (buf : String) :
    Option String := do
  let buf := buf ++ "      <div>"
  let buf := buf ++ "<img"
  let buf := buf ++ (" src=" ++ f.verbQ (stripContentFolder (← (Value.index image "src").asString)))
  let buf := buf ++ (" width=\"" ++ f.verbF0 (← (Value.index image "width").asFloat64) ++ "\"")
  let buf := buf ++ (" height=\"" ++ f.verbF0 (← (Value.index image "height").asFloat64) ++ "\"")
  let buf ← match image.lookup "alt" with
    | some alt => do pure (buf ++ (" alt=" ++ f.verbQ (← alt.asString)))
    | none => pure buf
  let buf ← match image.lookup "title" with
    | some title => do pure (buf ++ (" title=" ++ f.verbQ (← title.asString)))
    | none => pure buf
  let buf := buf ++ "/>"
  let buf := buf ++ "</div>\n"
  pure buf

/-- The loop `for i, img := range images.([]interface{})` of `cardGallery`,
started at index `i` with the buffer `buf`. -/
def cardGallery.loop (f : Fmt) : Nat → List Value → String → Option String
  | _, [], buf => some buf
  | i, img :: rest, buf =>
    let buf := if i > 0 ∧ i % 3 = 0 then (buf ++ "    </div>") ++ "    <div>" else buf
    match img.asMap with
    | none => cardGallery.loop f (i + 1) rest buf
    | some image =>
      match cardGallery.image f image buf with
      | none => none
      | some buf => cardGallery.loop f (i + 1) rest buf

def cardGallery (f : Fmt) (payload : Value) : Outcome :=
  match payload.asMap with
  | none => .ret "" []
  | some m =>
    let buf := ""
    let buf := buf ++ "<figure>\n"
    let buf := buf ++ "  <div>\n"
    let buf := buf ++ "    <div>\n"
    match m.lookup "images" with
    | none => .ret "" []
    | some images =>
      let written : Option String := do
        let buf ← cardGallery.loop f 0 (← images.asSlice) buf
        let buf := buf ++ "    </div>\n"
        let buf := buf ++ "  </div>\n"
        let buf ← match m.lookup "caption" with
          | some caption => do
            pure (buf ++ ("  <figcaption>\n    " ++ (← caption.asString) ++ "\n  </figcaption>\n"))
          | none => pure buf
        let buf := buf ++ "</figure>"
        pure buf
      match written with
      | some s => .ret s []
      | none => .panic []

def cardBookmark (f : Fmt) (payload : Value) : Outcome :=
  match payload.asMap with
  | none => .ret "" []
  | some m =>
    match m.lookup "metadata" with
    | none => .ret "" []
    | some meta =>
      match meta.asMap with
      | none => .ret "" []
      | some metadata =>
        match metadata.lookup "url" with
        | none => .ret "" []
        | some url =>
          match metadata.lookup "title" with
          | none => .ret "" []
          | some title =>
            match metadata.lookup "description" with
            | none => .ret "" []
            | some description =>
              let written : Option String := do
                let thumbnail ← match metadata.lookup "thumbnail" with
                  | some thumb => do
                    pure ("<div><img src=" ++ f.verbQ (← thumb.asString) ++ "></div>")
                  | none => pure ""
                let icon ← match metadata.lookup "icon" with
                  | some iconinfo => do pure ("<img src=" ++ f.verbQ (← iconinfo.asString) ++ ">")
                  | none => pure ""
                let author ← match metadata.lookup "author" with
                  | some authorinfo =>
                    if !authorinfo.isNil then do
                      pure ("<span>" ++ (← authorinfo.asString) ++ "</span>")
                    else pure ""
                  | none => pure ""
                let publisher ← match metadata.lookup "publisher" with
                  | some publisherinfo =>
                    if !publisherinfo.isNil then do
                      pure ("<span>" ++ (← publisherinfo.asString) ++ "</span>")
                    else pure ""
                  | none => pure ""
                let caption ← match m.lookup "caption" with
                  | some capt =>
                    if !capt.isNil then do
                      pure ("<figcaption>" ++ (← capt.asString) ++ "</figcaption>")
                    else pure ""
                  | none => pure ""
                let url ← url.asString
                let title ← title.asString
                let description ← description.asString
                pure ("<figure>\n\t     <a href=" ++ f.verbQ url
                  ++ ">\n\t       <div>\n\t         <div>" ++ title
                  ++ "</div>\n\t         <div>" ++ description
                  ++ "</div>\n\t         <div>\n\t           " ++ icon
                  ++ "\n\t           " ++ author
                  ++ "\n\t           " ++ publisher
                  ++ "\n\t         </div>\n\t       </div>\n\t       " ++ thumbnail
                  ++ "\n\t     </a>\n\t     " ++ caption
                  ++ "\n\t   </figure>")
              match written with
              | some s => .ret s []
              | none => .panic []

/-! ## Posts and the export collections -/

/-- A `time.Time` instant; the code only copies these values. -/
structure Time where
  sec : Int
  nsec : Nat
  deriving DecidableEq, Repr

structure post where
  ID : RawMessage
  Title : String
  Slug : String
  Content : String
  Plain : String
  MobileDoc : String
  Image : String
  FeaturedImage : String
  Page : RawMessage
  Status : String
  MetaDescription : String
  AuthorID : RawMessage
  PublishedAt : RawMessage
  CreatedAt : RawMessage
  Published : Time
  Created : Time
  IsDraft : Bool
  IsPage : Bool
  Author : String
  Tags : List String
  deriving DecidableEq, Repr

/-- Modelled from the spec: the `User` entity (id, name); its declaration is
outside `lib/post.go`, which reads the fields `ID` and `Name`. -/
structure user where
  ID : RawMessage
  Name : String
  deriving DecidableEq, Repr

/-- Modelled from the spec: the `Tag` entity (id, name); its declaration is
outside `lib/post.go`, which reads the fields `ID` and `Name`. -/
structure tag where
  ID : RawMessage
  Name : String
  deriving DecidableEq, Repr

/-- Modelled from the spec: the `PostTagLink` join row (postId, tagId); its
declaration is outside `lib/post.go`, which reads `PostID` and `TagID`. -/
structure posttag where
  PostID : RawMessage
  TagID : RawMessage
  deriving DecidableEq, Repr

/-- Modelled from the spec: the export collections (users, tags, post-tag
links); the declaration of `ghostInfo` is outside `lib/post.go`. -/
structure ghostInfo where
  users : List user
  tags : List tag
  posttags : List posttag
  deriving DecidableEq, Repr

/-- Modelled from the spec: the two external parsers `populate` calls, the
flexible timestamp parser `gth.parseTime` and the boolean coercion
`parseBool`; both are defined outside `lib/post.go`. -/
structure Parsers where
  parseTime : RawMessage → Time
  parseBool : RawMessage → Bool

/-- The loop `for _, user := range gi.users` of `populate`, with its `break`. -/
def populate.authorLoop (p : post) : List user → post
  | [] => p
  | user :: rest =>
    if bytes.Equal user.ID p.AuthorID then { p with Author := user.Name }
    else populate.authorLoop p rest

/-- The inner loop `for _, t := range gi.tags` of `populate`, with its `break`. -/
def populate.tagLoop (pt : posttag) (p : post) : List tag → post
  | [] => p
  | t :: rest =>
    if bytes.Equal t.ID pt.TagID then
      { p with Tags := p.Tags ++ [strings.TrimPrefix t.Name "#"] }
    else populate.tagLoop pt p rest

/-- The outer loop `for _, pt := range gi.posttags` of `populate`. -/
def populate.posttagLoop (tags : List tag) (p : post) : List posttag → post
  | [] => p
  | pt :: rest =>
    if bytes.Equal pt.PostID p.ID then
      populate.posttagLoop tags (populate.tagLoop pt p tags) rest
    else populate.posttagLoop tags p rest

def post.populate (p : post) (gi : ghostInfo) (gth : Parsers) : post :=
  let p := { p with Published := gth.parseTime p.PublishedAt }
  let p := { p with Created := gth.parseTime p.CreatedAt }
  let p := { p with IsDraft := p.Status == "draft" }
  let p := { p with IsPage := gth.parseBool p.Page }
  let p := populate.authorLoop p gi.users
  populate.posttagLoop gi.tags p gi.posttags

/-! ## Front matter -/

/-- A Go map with string keys that is built by assignments. -/
abbrev GoMap (α : Type) := List (String × α)

/-- The assignment `m[k] = v`. -/
def GoMap.set {α : Type} (k : String) (v : α) : GoMap α → GoMap α
  | [] => [(k, v)]
  | (k', v') :: rest => if k' = k then (k, v) :: rest else (k', v') :: GoMap.set k v rest

/-- The index expression `m[k]` with its presence flag. -/
def GoMap.get {α : Type} (m : GoMap α) (k : String) : Option α :=
  m.lookup k

/-- The keys of a map. -/
def GoMap.keys {α : Type} (m : GoMap α) : List String :=
  m.map Prod.fst

/-- The values `metadata()` stores in its `map[string]interface{}`. -/
inductive MetaValue where
  | time (t : Time)
  | str (s : String)
  | bool (b : Bool)
  | strs (xs : List String)
  deriving DecidableEq, Repr

def post.metadata (p : post) : GoMap MetaValue :=
  let metadata : GoMap MetaValue := []
  let metadata :=
    match p.IsDraft with
    | true => GoMap.set "date" (MetaValue.time p.Created) metadata
    | false => GoMap.set "date" (MetaValue.time p.Published) metadata
  let metadata := GoMap.set "title" (MetaValue.str p.Title) metadata
  let metadata := GoMap.set "draft" (MetaValue.bool p.IsDraft) metadata
  let metadata := GoMap.set "slug" (MetaValue.str p.Slug) metadata
  let metadata := GoMap.set "description" (MetaValue.str p.MetaDescription) metadata
  let metadata :=
    if p.Image ≠ "" then
      GoMap.set "image" (MetaValue.str (stripContentFolder p.Image)) metadata
    else if p.FeaturedImage ≠ "" then
      GoMap.set "image" (MetaValue.str (stripContentFolder p.FeaturedImage)) metadata
    else metadata
  let metadata :=
    if p.Tags.length > 0 then
      GoMap.set "categories" (MetaValue.strs p.Tags)
        (GoMap.set "tags" (MetaValue.strs p.Tags) metadata)
    else metadata
  let metadata :=
    if p.Author ≠ "" then GoMap.set "author" (MetaValue.str p.Author) metadata
    else metadata
  metadata

/-- A post with every field empty, as `encoding/json` leaves an absent field. -/
def post.zero : post :=
  { ID := [], Title := "", Slug := "", Content := "", Plain := "", MobileDoc := "",
    Image := "", FeaturedImage := "", Page := [], Status := "", MetaDescription := "",
    AuthorID := [], PublishedAt := [], CreatedAt := [], Published := ⟨0, 0⟩,
    Created := ⟨0, 0⟩, IsDraft := false, IsPage := false, Author := "", Tags := [] }

/-- Parsers used at concrete inputs: every timestamp is the zero time and the
page flag is the literal `true`. -/
def Parsers.sample : Parsers :=
  { parseTime := fun _ => ⟨0, 0⟩, parseBool := fun raw => raw == "true".toUTF8.toList }

/-! ## Rendering the document and resolving the path -/

/-- Modelled from the spec: a document handed to the external document-walking
engine (`mobiledoc.NewMobiledoc(r)`), with the atom and card renderers
registered on it by name. -/
structure Mobiledoc where
  source : String
  atoms : GoMap (String → Value → String)
  cards : GoMap (Value → Outcome)

/-- Modelled from the spec: `mobiledoc.NewMobiledoc`, a document with nothing
registered. -/
def mobiledoc.NewMobiledoc (r : String) : Mobiledoc :=
  { source := r, atoms := [], cards := [] }

/-- Modelled from the spec: `WithAtom` registers an atom renderer under a name. -/
def Mobiledoc.WithAtom (md : Mobiledoc) (name : String) (fn : String → Value → String) :
    Mobiledoc :=
  { md with atoms := GoMap.set name fn md.atoms }

/-- Modelled from the spec: `WithCard` registers a card renderer under a name. -/
def Mobiledoc.WithCard (md : Mobiledoc) (name : String) (fn : Value → Outcome) : Mobiledoc :=
  { md with cards := GoMap.set name fn md.cards }

/-- How a call `md.Render(&buf)` of the external engine ends: it returns `nil`,
it returns an error (kept as its message), or a renderer it called panicked. -/
inductive RenderEnd where
  | ok
  | error (msg : String)
  | panic
  deriving DecidableEq, Repr

/-- Modelled from the spec: one run of the external document-walking engine;
what it wrote to the buffer, the diagnostics the renderers logged meanwhile,
and how the call ended. -/
structure RenderRun where
  written : String
  log : List String
  ending : RenderEnd
  deriving DecidableEq, Repr

/-- Modelled from the spec: the external document-walking engine `Render`, an
abstract function of the document and the renderers registered on it. -/
abbrev Engine := Mobiledoc → RenderRun

/-- A multi-byte UTF-8 sequence being read: how many continuation bytes are
still expected, how many bytes were read, the bits of the code point so far
and the bounds the next byte must lie in. -/
structure Utf8Pending where
  need : Nat
  seen : Nat
  acc : Nat
  lo : Nat
  hi : Nat
  deriving DecidableEq, Repr

/-- Nothing of a multi-byte sequence is pending. -/
def utf8.idle : Utf8Pending :=
  { need := 0, seen := 0, acc := 0, lo := 0, hi := 0 }

/-- The replacement character U+FFFD, which stands for a byte that is not part
of a valid UTF-8 sequence. -/
def utf8.RuneError : Char :=
  Char.ofNat 65533

/-- The first byte of a sequence: an ASCII byte is a character, a leading byte
opens a sequence of two, three or four bytes with the bounds of its second
byte (so that overlong forms, surrogates and code points above U+10FFFF are
refused), any other byte is an error. -/
def utf8.start (b : Nat) : List Char × Utf8Pending :=
  if b < 128 then ([Char.ofNat b], utf8.idle)
  else if 194 ≤ b ∧ b ≤ 223 then ([], ⟨1, 1, b % 32, 128, 191⟩)
  else if b = 224 then ([], ⟨2, 1, b % 16, 160, 191⟩)
  else if b = 237 then ([], ⟨2, 1, b % 16, 128, 159⟩)
  else if 225 ≤ b ∧ b ≤ 239 then ([], ⟨2, 1, b % 16, 128, 191⟩)
  else if b = 240 then ([], ⟨3, 1, b % 8, 144, 191⟩)
  else if 241 ≤ b ∧ b ≤ 243 then ([], ⟨3, 1, b % 8, 128, 191⟩)
  else if b = 244 then ([], ⟨3, 1, b % 8, 128, 143⟩)
  else ([utf8.RuneError], utf8.idle)

/-- One byte read: a continuation byte in bounds extends the pending sequence
or completes its character; any other byte turns each byte read so far into an
error and is read as a first byte. -/
def utf8.step (st : Utf8Pending) (b : Nat) : List Char × Utf8Pending :=
  if st.need = 0 then utf8.start b
  else if st.lo ≤ b ∧ b ≤ st.hi then
    if st.need = 1 then ([Char.ofNat (st.acc * 64 + b % 64)], utf8.idle)
    else ([], ⟨st.need - 1, st.seen + 1, st.acc * 64 + b % 64, 128, 191⟩)
  else
    (List.replicate st.seen utf8.RuneError ++ (utf8.start b).1, (utf8.start b).2)

/-- The characters of a byte sequence read as UTF-8, the way the language
decodes text: a byte that does not belong to a valid sequence becomes U+FFFD. -/
def utf8.decode (st : Utf8Pending) : List UInt8 → List Char
  | [] => List.replicate st.seen utf8.RuneError
  | b :: rest => (utf8.step st b.toNat).1 ++ utf8.decode (utf8.step st b.toNat).2 rest

/-- The verb `%s` applied to a byte slice prints the bytes as text: the bytes
of the identifier read as UTF-8. -/
def RawMessage.text (raw : RawMessage) : String :=
  ⟨utf8.decode utf8.idle raw⟩

/-- The document built in `mobiledocMarkdown` by the chain of `WithAtom` and
`WithCard` calls. -/
def post.mobiledocMarkdown.md (f : Fmt) (r : String) : Mobiledoc :=
  (((((((((((mobiledoc.NewMobiledoc r).WithAtom "soft-break" atomSoftReturn).WithAtom
    "soft-return" atomSoftReturn).WithCard
    "card-markdown" cardMarkdown).WithCard
    "markdown" cardMarkdown).WithCard
    "hr" cardHR).WithCard
    "image" (cardImage f)).WithCard
    "code" cardCode).WithCard
    "embed" cardEmbed).WithCard
    "gallery" (cardGallery f)).WithCard
    "html" cardHTML).WithCard
    "bookmark" (cardBookmark f)

def post.mobiledocMarkdown (p : post) (f : Fmt) (Render : Engine) : Outcome :=
  if p.MobileDoc = "" then .ret "" []
  else
    let r := p.MobileDoc
    let md := post.mobiledocMarkdown.md f r
    let run := Render md
    match run.ending with
    | .panic => .panic run.log
    | .error err =>
      .ret "" (run.log ++ ["ERROR rendering post " ++ RawMessage.text p.ID ++ " (" ++ err ++ ")"])
    | .ok => .ret run.written run.log

/-- The renderer the engine finds for a card name, applied to a payload. -/
def Mobiledoc.renderCard (md : Mobiledoc) (name : String) (payload : Value) : Option Outcome :=
  (GoMap.get md.cards name).map (fun fn => fn payload)

/-- The segments of a path between its slashes. -/
def path.segments : List Char → List (List Char)
  | [] => [[]]
  | c :: cs =>
    if c = '/' then [] :: path.segments cs
    else
      match path.segments cs with
      | [] => [[c]]
      | seg :: segs => (c :: seg) :: segs

/-- The pass of `path.Clean` over the segments: empty and `.` segments are
dropped, `..` removes the segment before it when there is one to remove (at
the root it is dropped, in a relative path it is kept); `out` holds the
segments kept so far, last one first. -/
def path.cleanSegments (rooted : Bool) : List (List Char) → List (List Char) → List (List Char)
  | [], out => out.reverse
  | seg :: rest, out =>
    if seg = [] ∨ seg = ['.'] then path.cleanSegments rooted rest out
    else if seg = ['.', '.'] then
      match out with
      | top :: out' =>
        if top = ['.', '.'] then path.cleanSegments rooted rest (seg :: out)
        else path.cleanSegments rooted rest out'
      | [] =>
        if rooted then path.cleanSegments rooted rest []
        else path.cleanSegments rooted rest [seg]
    else path.cleanSegments rooted rest (seg :: out)

/-- Segments put together again with slashes between them. -/
def path.joinSegments : List (List Char) → List Char
  | [] => []
  | [seg] => seg
  | seg :: seg' :: segs => seg ++ '/' :: path.joinSegments (seg' :: segs)

/-- The library function `path.Clean`, described on path segments: the
shortest path naming the same place by purely lexical processing. -/
def path.Clean (p : String) : String :=
  if p = "" then "."
  else
    let rooted := p.data.head? = some '/'
    let segs := path.cleanSegments rooted (path.segments p.data) []
    let body : String := ⟨path.joinSegments segs⟩
    if rooted then "/" ++ body
    else if body = "" then "."
    else body

/-- The library function `path.Join`: the non-empty elements joined by slashes,
then cleaned; the empty string when every element is empty. -/
def path.Join (elem : List String) : String :=
  let size := (elem.map String.length).sum
  if size = 0 then ""
  else
    let buf := elem.foldl (fun (buf : String) e =>
      if buf.length > 0 ∨ e ≠ "" then (if buf.length > 0 then buf ++ "/" else buf) ++ e
      else buf) ""
    path.Clean buf

/-- Modelled from the spec: the site of the static-site generator; `AbsPathify`
(of `site.PathSpec`) makes a path absolute. -/
structure Site where
  AbsPathify : String → String

/-- A site with the working directory `workingDir`, as the generator's
library implements it: `AbsPathify` cleans a path that is already absolute and
joins any other path to the working directory, which cleans the result as
well. -/
def Site.rootedAt (workingDir : String) : Site :=
  { AbsPathify := fun inPath =>
      if strings.HasPrefix inPath "/" then path.Clean inPath
      else path.Join [workingDir, inPath] }

/-- Modelled from the spec: the process-wide configuration read with
`viper.GetString`. -/
structure Viper where
  GetString : String → String

def post.path (p : post) (site : Site) (viper : Viper) : String :=
  if p.IsPage then
    site.AbsPathify (path.Join [viper.GetString "contentDir", p.Slug ++ ".md"])
  else
    site.AbsPathify (path.Join [viper.GetString "contentDir", "post", p.Slug ++ ".md"])

/-! ## Clean paths -/

/-- A segment that `path.Clean` keeps as it is: not empty, without a slash,
and neither `.` nor `..`. -/
def plainSegment (seg : List Char) : Bool :=
  decide (seg ≠ []) && decide ('/' ∉ seg) && decide (seg ≠ ['.']) && decide (seg ≠ ['.', '.'])

/-- The path made of the given segments, absolute when `rooted`. -/
def pathOfSegments (rooted : Bool) (segs : List (List Char)) : String :=
  ⟨(if rooted then ['/'] else []) ++ path.joinSegments segs⟩

/-! ## The specification's description of a gallery -/

/-- A well-formed image object of a gallery: `src` is a string, `width` and
`height` are numbers, `alt` and `title` are strings when present. -/
def wellFormedImage : Value → Bool
  | .obj image =>
    (match image.lookup "src" with | some (.str _) => true | _ => false) &&
    (match image.lookup "width" with | some (.num _) => true | _ => false) &&
    (match image.lookup "height" with | some (.num _) => true | _ => false) &&
    (match image.lookup "alt" with | none => true | some (.str _) => true | _ => false) &&
    (match image.lookup "title" with | none => true | some (.str _) => true | _ => false)
  | _ => false

/-- An entry of `images` the loop gets through: a well-formed image object or
an entry that is not an object. -/
def admissibleEntry : Value → Bool
  | .obj image => wellFormedImage (.obj image)
  | _ => true

/-- An entry of `images` that is an object. -/
def Value.isObject : Value → Bool
  | .obj _ => true
  | _ => false

/-- The string under a key of an object, the empty string when there is none. -/
def stringField (image : List (String × Value)) (k : String) : String :=
  match image.lookup k with
  | some (.str s) => s
  | _ => ""

/-- The number under a key of an object, zero when there is none. -/
def numberField (image : List (String × Value)) (k : String) : Rat :=
  match image.lookup k with
  | some (.num x) => x
  | _ => 0

/-- An optional quoted attribute of an image: present when the key holds a
string. -/
def optionalAttribute (f : Fmt) (image : List (String × Value)) (k : String) : String :=
  match image.lookup k with
  | some (.str s) => " " ++ k ++ "=" ++ f.verbQ s
  | _ => ""

/-- The markup of one entry of a gallery as the specification words it: for an
image object a `div` holding an `img` whose `src` is quoted with the leading
content folder stripped, whose `width` and `height` are printed without
decimals and whose `alt` and `title` appear when present; nothing for an entry
that is not an object. -/
def imageMarkup (f : Fmt) (v : Value) : String :=
  match v with
  | .obj image =>
    "      <div><img src=" ++ f.verbQ (stripContentFolder (stringField image "src"))
      ++ " width=\"" ++ f.verbF0 (numberField image "width") ++ "\""
      ++ " height=\"" ++ f.verbF0 (numberField image "height") ++ "\""
      ++ optionalAttribute f image "alt" ++ optionalAttribute f image "title"
      ++ "/></div>\n"
  | _ => ""

/-- The row boundary: the current row is closed and the next one opened. -/
def rowBreak : String :=
  "    </div>" ++ "    <div>"

/-- The strings of a list one after the other. -/
def concatAll : List String → String
  | [] => ""
  | x :: xs => x ++ concatAll xs

/-- The items from index `i` on, with a row boundary in front of every item
whose index is positive and a multiple of 3. -/
def renderBefore (i : Nat) : List String → String
  | [] => ""
  | x :: xs => (if i > 0 ∧ i % 3 = 0 then rowBreak else "") ++ (x ++ renderBefore (i + 1) xs)

/-- The items from index `i` on, with a row boundary right after every item
whose index satisfies `brk`. -/
def renderAfter (brk : Nat → Bool) (i : Nat) : List String → String
  | [] => ""
  | x :: xs => x ++ ((if brk i then rowBreak else "") ++ renderAfter brk (i + 1) xs)

/-- A list cut into rows of three, the last row holding what is left. -/
def rowsOf3 {α : Type} : List α → List (List α)
  | [] => []
  | [a] => [[a]]
  | [a, b] => [[a, b]]
  | a :: b :: c :: rest => [a, b, c] :: rowsOf3 rest

/-- Rows, already rendered, separated by row boundaries. -/
def joinRows : List String → String
  | [] => ""
  | [r] => r
  | r :: r' :: rs => r ++ (rowBreak ++ joinRows (r' :: rs))

/-- The rendering of rows of image markup. -/
def renderRows (rows : List (List String)) : String :=
  joinRows (rows.map concatAll)

/-- The caption of a gallery payload when it is a string. -/
def galleryCaption (m : List (String × Value)) : Option String :=
  match m.lookup "caption" with
  | some (.str c) => some c
  | _ => none

/-- The caption of a gallery payload is absent or a string. -/
def captionWellTyped (m : List (String × Value)) : Bool :=
  match m.lookup "caption" with
  | none => true
  | some (.str _) => true
  | _ => false

/-- The output of `cardGallery` around the rendered rows: the figure, the
container and the first row are opened, the last row and the container are
closed, the caption follows when there is one. -/
def galleryFrame (rows : String) (caption : Option String) : String :=
  "<figure>\n" ++ ("  <div>\n" ++ ("    <div>\n" ++ (rows ++ ("    </div>\n" ++ ("  </div>\n" ++
    ((match caption with
      | some c => "  <figcaption>\n    " ++ c ++ "\n  </figcaption>\n"
      | none => "") ++ "</figure>"))))))

/-! ## The specification's description of the joins -/

/-- A name with one leading `#` removed, as the specification words it. -/
def dropLeadingSigil (n : String) : String :=
  match n.data with
  | '#' :: r => ⟨r⟩
  | _ => n

/-- The tag list as the specification words it: walk the post-tag rows in
collection order, keep the rows of this post, and for each kept row take the
name (one leading `#` removed) of the first tag with the row's tag id, or
nothing when no tag has that id. -/
def specTags (gi : ghostInfo) (p : post) : List String :=
  ((gi.posttags.filter (fun pt => decide (pt.PostID = p.ID))).map (fun pt =>
    match gi.tags.find? (fun t => decide (t.ID = pt.TagID)) with
    | some t => [dropLeadingSigil t.Name]
    | none => [])).flatten

/-! ## Lemmas on the library functions -/

theorem bytes_Equal_iff (a b : RawMessage) : bytes.Equal a b = true ↔ a = b := by
  simp [bytes.Equal]

theorem TrimPrefix_sigil (n : String) : strings.TrimPrefix n "#" = dropLeadingSigil n := by
  obtain ⟨cs⟩ := n
  cases cs with
  | nil => rfl
  | cons c r =>
    by_cases hc : c = '#'
    · subst hc
      simp [strings.TrimPrefix, strings.HasPrefix, dropLeadingSigil, List.isPrefixOf]
    · simp [strings.TrimPrefix, strings.HasPrefix, dropLeadingSigil, List.isPrefixOf, hc]
      intro h
      exact absurd h.symm hc

theorem HasPrefix_iff (s pre : String) :
    strings.HasPrefix s pre = true ↔ ∃ r : String, s = pre ++ r := by
  unfold strings.HasPrefix
  rw [List.isPrefixOf_iff_prefix]
  constructor
  · rintro ⟨t, ht⟩
    exact ⟨⟨t⟩, String.ext (by simp [String.data_append, ht])⟩
  · rintro ⟨r, rfl⟩
    exact ⟨r.data, by simp [String.data_append]⟩

theorem TrimPrefix_append (pre r : String) : strings.TrimPrefix (pre ++ r) pre = r := by
  have h : strings.HasPrefix (pre ++ r) pre = true := (HasPrefix_iff _ _).2 ⟨r, rfl⟩
  unfold strings.TrimPrefix
  rw [if_pos h]
  exact String.ext (by simp [String.data_append])

theorem TrimPrefix_of_not_HasPrefix (s pre : String) (h : ¬ ∃ r : String, s = pre ++ r) :
    strings.TrimPrefix s pre = s := by
  have h' : ¬ strings.HasPrefix s pre = true := fun hp => h ((HasPrefix_iff _ _).1 hp)
  unfold strings.TrimPrefix
  rw [if_neg h']

theorem TrimPrefix_eq_empty_iff (s pre : String) :
    strings.TrimPrefix s pre = "" ↔ s = "" ∨ s = pre := by
  constructor
  · intro h
    by_cases hp : ∃ r : String, s = pre ++ r
    · obtain ⟨r, rfl⟩ := hp
      rw [TrimPrefix_append] at h
      subst h
      right
      exact String.ext (by simp [String.data_append])
    · rw [TrimPrefix_of_not_HasPrefix s pre hp] at h
      exact Or.inl h
  · rintro (rfl | rfl)
    · unfold strings.TrimPrefix
      split
      · exact String.ext (by simp)
      · rfl
    · have := TrimPrefix_append s ""
      have hs : s ++ "" = s := String.ext (by simp [String.data_append])
      rwa [hs] at this

/-! ## Lemmas on the gallery loop -/

theorem shape_str {o : Option Value}
    (h : (match o with | some (.str _) => true | _ => false) = true) :
    ∃ s, o = some (.str s) := by
  rcases o with _ | (_ | _ | _ | s | _ | _) <;> simp at h ⊢

theorem shape_num {o : Option Value}
    (h : (match o with | some (.num _) => true | _ => false) = true) :
    ∃ x, o = some (.num x) := by
  rcases o with _ | (_ | _ | x | _ | _ | _) <;> simp at h ⊢

theorem shape_opt_str {o : Option Value}
    (h : (match o with | none => true | some (.str _) => true | _ => false) = true) :
    o = none ∨ ∃ s, o = some (.str s) := by
  rcases o with _ | (_ | _ | _ | s | _ | _) <;> simp at h ⊢

theorem gallery_image_eq (f : Fmt) (image : List (String × Value)) (buf : String)
    (h : wellFormedImage (.obj image) = true) :
    cardGallery.image f image buf = some (buf ++ imageMarkup f (.obj image)) := by
  simp only [wellFormedImage, Bool.and_eq_true] at h
  obtain ⟨⟨⟨⟨h1, h2⟩, h3⟩, h4⟩, h5⟩ := h
  obtain ⟨s, hs⟩ := shape_str h1
  obtain ⟨w, hw⟩ := shape_num h2
  obtain ⟨ht, hht⟩ := shape_num h3
  rcases shape_opt_str h4 with ha | ⟨a, ha⟩ <;> rcases shape_opt_str h5 with hti | ⟨ti, hti⟩ <;>
    simp only [cardGallery.image, imageMarkup, stringField, numberField, optionalAttribute,
      Value.index, Value.asString, Value.asFloat64, hs, hw, hht, ha, hti, Option.getD_some,
      Option.pure_def, Option.bind_eq_bind, Option.some_bind] <;>
    congr 1 <;> apply String.ext <;>
    simp only [String.data_append, List.append_assoc] <;> rfl

theorem imageMarkup_of_not_object (f : Fmt) (v : Value) (h : v.isObject = false) :
    imageMarkup f v = "" := by
  cases v <;> simp [Value.isObject] at h <;> rfl

theorem gallery_loop_eq (f : Fmt) (entries : List Value) (i : Nat) (buf : String)
    (h : ∀ e ∈ entries, admissibleEntry e = true) :
    cardGallery.loop f i entries buf
      = some (buf ++ renderBefore i (entries.map (imageMarkup f))) := by
  induction entries generalizing i buf with
  | nil => simp [cardGallery.loop, renderBefore]
  | cons e rest ih =>
    have hrest : ∀ x ∈ rest, admissibleEntry x = true :=
      fun x hx => h x (List.mem_cons_of_mem _ hx)
    have he : admissibleEntry e = true := h e (List.mem_cons_self _ _)
    cases e with
    | obj image =>
      have hw : wellFormedImage (.obj image) = true := he
      simp only [cardGallery.loop, Value.asMap, gallery_image_eq f image _ hw, ih _ _ hrest,
        List.map_cons, renderBefore]
      split <;> simp [rowBreak, String.append_assoc]
    | _ =>
      simp only [cardGallery.loop, Value.asMap, ih _ _ hrest, List.map_cons, renderBefore]
      split <;> simp [rowBreak, String.append_assoc, imageMarkup]

theorem cardGallery_eq (f : Fmt) (m : List (String × Value)) (entries : List Value)
    (him : m.lookup "images" = some (.arr entries))
    (hall : ∀ e ∈ entries, admissibleEntry e = true)
    (hcap : captionWellTyped m = true) :
    cardGallery f (.obj m)
      = .ret (galleryFrame (renderBefore 0 (entries.map (imageMarkup f))) (galleryCaption m))
          [] := by
  unfold captionWellTyped at hcap
  rcases shape_opt_str hcap with hc | ⟨c, hc⟩ <;>
    simp [cardGallery, Value.asMap, Value.asSlice, Value.asString, him,
      gallery_loop_eq f entries 0 _ hall, galleryFrame, galleryCaption, hc, String.append_assoc]
    <;> (apply String.ext; simp only [String.data_append, List.append_assoc]; rfl)

/-! ## Lemmas on rows of three -/

theorem rowsOf3_eq_nil_iff {α : Type} (l : List α) : rowsOf3 l = [] ↔ l = [] := by
  match l with
  | [] => simp [rowsOf3]
  | [_] => simp [rowsOf3]
  | [_, _] => simp [rowsOf3]
  | _ :: _ :: _ :: _ => simp [rowsOf3]

theorem rowsOf3_flatten {α : Type} (l : List α) : (rowsOf3 l).flatten = l := by
  induction l using rowsOf3.induct with
  | case1 => rfl
  | case2 a => rfl
  | case3 a b => rfl
  | case4 a b c rest ih => simp [rowsOf3, ih]

theorem rowsOf3_length {α : Type} (l : List α) : (rowsOf3 l).length = (l.length + 2) / 3 := by
  induction l using rowsOf3.induct with
  | case1 => simp [rowsOf3]
  | case2 a => simp [rowsOf3]
  | case3 a b => simp [rowsOf3]
  | case4 a b c rest ih =>
    simp only [rowsOf3, List.length_cons, ih]
    omega

theorem rowsOf3_map {α β : Type} (g : α → β) (l : List α) :
    rowsOf3 (l.map g) = (rowsOf3 l).map (List.map g) := by
  induction l using rowsOf3.induct with
  | case1 => rfl
  | case2 a => rfl
  | case3 a b => rfl
  | case4 a b c rest ih => simp [rowsOf3, ih]

theorem rowsOf3_row_length {α : Type} (l : List α) :
    ∀ r ∈ rowsOf3 l, 1 ≤ r.length ∧ r.length ≤ 3 := by
  induction l using rowsOf3.induct with
  | case1 => simp [rowsOf3]
  | case2 a => simp [rowsOf3]
  | case3 a b => simp [rowsOf3]
  | case4 a b c rest ih =>
    intro r hr
    simp only [rowsOf3, List.mem_cons] at hr
    rcases hr with rfl | hr
    · simp
    · exact ih r hr

theorem rowsOf3_dropLast {α : Type} (l : List α) :
    ∀ r ∈ (rowsOf3 l).dropLast, r.length = 3 := by
  induction l using rowsOf3.induct with
  | case1 => simp [rowsOf3]
  | case2 a => simp [rowsOf3]
  | case3 a b => simp [rowsOf3]
  | case4 a b c rest ih =>
    intro r hr
    cases hrest : rowsOf3 rest with
    | nil => simp [rowsOf3, hrest] at hr
    | cons r' rs =>
      simp only [rowsOf3, hrest, List.dropLast_cons₂, List.mem_cons] at hr
      rcases hr with rfl | hr
      · rfl
      · exact ih r (by rw [hrest]; exact hr)

theorem rowsOf3_getLast {α : Type} (l : List α) (hl : l ≠ []) :
    ((rowsOf3 l).getLast?).map List.length
      = some (l.length - 3 * ((l.length + 2) / 3 - 1)) := by
  induction l using rowsOf3.induct with
  | case1 => exact absurd rfl hl
  | case2 a => simp [rowsOf3]
  | case3 a b => simp [rowsOf3]
  | case4 a b c rest ih =>
    cases hrest : rowsOf3 rest with
    | nil =>
      have : rest = [] := (rowsOf3_eq_nil_iff rest).1 hrest
      subst this
      simp [rowsOf3]
    | cons r' rs =>
      have hne : rest ≠ [] := fun h => by
        rw [(rowsOf3_eq_nil_iff rest).2 h] at hrest
        exact absurd hrest (by simp)
      have ih' := ih hne
      rw [hrest] at ih'
      simp only [rowsOf3, hrest, List.getLast?_cons_cons, List.length_cons]
      rw [ih']
      have hpos : 0 < rest.length := List.length_pos.2 hne
      congr 1
      omega

theorem renderBefore_rows (l : List String) :
    ∀ k : Nat, l ≠ [] →
      renderBefore (3 * k) l = (if 0 < k then rowBreak else "") ++ renderRows (rowsOf3 l) := by
  induction l using rowsOf3.induct with
  | case1 => intro k h; exact absurd rfl h
  | case2 a =>
    intro k _
    have h1 : (3 * k) % 3 = 0 := by omega
    have h0 : (3 * k > 0) = (0 < k) := by apply propext; omega
    simp [renderBefore, renderRows, rowsOf3, joinRows, concatAll, h1, h0]
  | case3 a b =>
    intro k _
    have h1 : (3 * k) % 3 = 0 := by omega
    have h2 : ¬ (3 * k + 1) % 3 = 0 := by omega
    have h0 : (3 * k > 0) = (0 < k) := by apply propext; omega
    simp [renderBefore, renderRows, rowsOf3, joinRows, concatAll, h1, h2, h0]
  | case4 a b c rest ih =>
    intro k _
    have h1 : (3 * k) % 3 = 0 := by omega
    have h2 : ¬ (3 * k + 1) % 3 = 0 := by omega
    have h3 : ¬ (3 * k + 1 + 1) % 3 = 0 := by omega
    have h4 : 3 * k + 1 + 1 + 1 = 3 * (k + 1) := by omega
    have h0 : (3 * k > 0) = (0 < k) := by apply propext; omega
    simp only [renderBefore, h1, h2, h3, h4, h0, and_true, and_false, if_false]
    cases hrest : rest with
    | nil =>
      simp [renderBefore, renderRows, rowsOf3, joinRows, concatAll, String.append_assoc]
    | cons x xs =>
      have hne : rest ≠ [] := by rw [hrest]; simp
      have ih' := ih (k + 1) hne
      rw [hrest] at ih'
      rw [ih']
      have hrows : rowsOf3 (x :: xs) ≠ [] := fun h => by
        have := (rowsOf3_eq_nil_iff (x :: xs)).1 h
        simp at this
      cases hr : rowsOf3 (x :: xs) with
      | nil => exact absurd hr hrows
      | cons r rs =>
        simp [renderRows, rowsOf3, hr, joinRows, concatAll, String.append_assoc]

theorem renderBefore_zero_rows (l : List String) :
    renderBefore 0 l = renderRows (rowsOf3 l) := by
  cases l with
  | nil => rfl
  | cons x xs =>
    have h := renderBefore_rows (x :: xs) 0 (by simp)
    simpa using h

theorem renderBefore_after (n : Nat) (l : List String) :
    ∀ i : Nat, l ≠ [] → i + l.length = n →
      renderBefore i l = (if i > 0 ∧ i % 3 = 0 then rowBreak else "")
        ++ renderAfter (fun j => decide (j % 3 = 2 ∧ j + 1 < n)) i l := by
  induction l with
  | nil => intro i h; exact absurd rfl h
  | cons x xs ih =>
    intro i _ hlen
    cases xs with
    | nil =>
      have hi : ¬ (i % 3 = 2 ∧ i + 1 < n) := by
        simp only [List.length_cons, List.length_nil] at hlen
        omega
      simp [renderBefore, renderAfter, hi]
    | cons y ys =>
      have hnext := ih (i + 1) (by simp) (by simp only [List.length_cons] at hlen ⊢; omega)
      have hcond : (i + 1 > 0 ∧ (i + 1) % 3 = 0) ↔ (i % 3 = 2 ∧ i + 1 < n) := by
        simp only [List.length_cons] at hlen
        omega
      rw [renderBefore, hnext]
      simp only [renderAfter]
      by_cases hc : i % 3 = 2 ∧ i + 1 < n
      · simp [hc, hcond.2 hc]
      · have hc' : ¬ (i + 1) % 3 = 0 := fun h => hc (hcond.1 ⟨Nat.succ_pos i, h⟩)
        simp [hc, hc']

theorem renderBefore_zero_after (l : List String) :
    renderBefore 0 l
      = renderAfter (fun j => decide (j % 3 = 2 ∧ j + 1 < l.length)) 0 l := by
  cases l with
  | nil => rfl
  | cons x xs =>
    have h := renderBefore_after (x :: xs).length (x :: xs) 0 (by simp) (by simp)
    simpa using h

/-! ## Lemmas on `path.Join` -/

theorem segments_ne_nil (l : List Char) : path.segments l ≠ [] := by
  induction l with
  | nil => simp [path.segments]
  | cons c cs ih =>
    unfold path.segments
    split
    · simp
    · split <;> simp

theorem segments_append_slash (a b : List Char) :
    path.segments (a ++ '/' :: b) = path.segments a ++ path.segments b := by
  induction a with
  | nil => simp [path.segments]
  | cons c cs ih =>
    by_cases hc : c = '/'
    · simp [path.segments, hc, ih]
    · cases hs : path.segments cs with
      | nil => exact absurd hs (segments_ne_nil cs)
      | cons seg segs =>
        have e : ∀ l : List Char, path.segments (c :: l)
            = (match path.segments l with
                | [] => [[c]]
                | seg :: segs => (c :: seg) :: segs) := by
          intro l
          simp only [path.segments, hc, if_false]
        rw [List.cons_append, e, e, ih, hs]
        rfl

theorem segments_of_no_slash (seg : List Char) (h : '/' ∉ seg) : path.segments seg = [seg] := by
  induction seg with
  | nil => rfl
  | cons c cs ih =>
    have hc : c ≠ '/' := fun hc => h (by simp [hc])
    have hcs : '/' ∉ cs := fun hcs => h (List.mem_cons_of_mem _ hcs)
    simp [path.segments, hc, ih hcs]

theorem segments_joinSegments (segs : List (List Char)) (hne : segs ≠ [])
    (h : ∀ seg ∈ segs, plainSegment seg = true) :
    path.segments (path.joinSegments segs) = segs := by
  induction segs with
  | nil => exact absurd rfl hne
  | cons seg rest ih =>
    have hseg : '/' ∉ seg := by
      have := h seg (List.mem_cons_self _ _)
      simp [plainSegment] at this
      exact this.1.1.2
    cases rest with
    | nil => simpa [path.joinSegments] using segments_of_no_slash seg hseg
    | cons seg' rest' =>
      rw [path.joinSegments, segments_append_slash, segments_of_no_slash seg hseg,
        ih (by simp) (fun x hx => h x (List.mem_cons_of_mem _ hx))]
      rfl

theorem cleanSegments_plain (rooted : Bool) (segs out : List (List Char))
    (h : ∀ seg ∈ segs, plainSegment seg = true) :
    path.cleanSegments rooted segs out = out.reverse ++ segs := by
  induction segs generalizing out with
  | nil => simp [path.cleanSegments]
  | cons seg rest ih =>
    have hp := h seg (List.mem_cons_self _ _)
    simp [plainSegment] at hp
    obtain ⟨⟨⟨h1, _⟩, h3⟩, h4⟩ := hp
    have h3' : ¬ seg = ['.'] := h3
    have h4' : ¬ seg = ['.', '.'] := h4
    simp only [path.cleanSegments, h1, h3', h4', or_self, if_false]
    rw [ih _ (fun x hx => h x (List.mem_cons_of_mem _ hx))]
    simp

theorem joinSegments_append_singleton (segs : List (List Char)) (seg : List Char)
    (hne : segs ≠ []) :
    path.joinSegments (segs ++ [seg]) = path.joinSegments segs ++ '/' :: seg := by
  induction segs with
  | nil => exact absurd rfl hne
  | cons s rest ih =>
    cases rest with
    | nil => simp [path.joinSegments]
    | cons s' rest' =>
      have := ih (by simp)
      simp only [List.cons_append] at this ⊢
      simp [path.joinSegments, this]

theorem joinSegments_head (segs : List (List Char)) (hne : segs ≠ [])
    (h : ∀ seg ∈ segs, plainSegment seg = true) :
    ∃ (c : Char) (tl : List Char), c ≠ '/' ∧ path.joinSegments segs = c :: tl := by
  cases segs with
  | nil => exact absurd rfl hne
  | cons seg rest =>
    have hp := h seg (List.mem_cons_self _ _)
    simp [plainSegment] at hp
    obtain ⟨⟨⟨h1, h2⟩, _⟩, _⟩ := hp
    cases seg with
    | nil => exact absurd rfl h1
    | cons c cs =>
      have hc : c ≠ '/' := fun hc => h2 (by simp [hc])
      cases rest with
      | nil => exact ⟨c, cs, hc, rfl⟩
      | cons s' rest' => exact ⟨c, cs ++ '/' :: path.joinSegments (s' :: rest'), hc, rfl⟩

theorem Clean_pathOfSegments (rooted : Bool) (segs : List (List Char)) (hne : segs ≠ [])
    (h : ∀ seg ∈ segs, plainSegment seg = true) :
    path.Clean (pathOfSegments rooted segs) = pathOfSegments rooted segs := by
  obtain ⟨c, tl, hc, hj⟩ := joinSegments_head segs hne h
  have hseg := segments_joinSegments segs hne h
  have hclean := cleanSegments_plain rooted segs [] h
  cases rooted with
  | true =>
    have hdata : (pathOfSegments true segs).data = '/' :: path.joinSegments segs := rfl
    have hne' : pathOfSegments true segs ≠ "" := by
      intro he
      have := congrArg String.data he
      rw [hdata] at this
      exact absurd this (by simp)
    have hsegs : path.segments ('/' :: path.joinSegments segs) = [] :: segs := by
      simp [path.segments, hseg]
    have hc2 : path.cleanSegments true ([] :: segs) [] = segs := by
      simp only [path.cleanSegments, true_or, if_true]
      simpa using hclean
    unfold path.Clean
    rw [if_neg hne']
    simp only [hdata, List.head?_cons, hsegs, hc2, decide_True, if_true]
    apply String.ext
    simp [pathOfSegments, String.data_append]
  | false =>
    have hdata : (pathOfSegments false segs).data = path.joinSegments segs := rfl
    have hne' : pathOfSegments false segs ≠ "" := by
      intro he
      have := congrArg String.data he
      rw [hdata, hj] at this
      exact absurd this (by simp)
    have hhead : ¬ (path.joinSegments segs).head? = some '/' := by
      rw [hj]
      simp [hc]
    have hbody : (⟨path.joinSegments segs⟩ : String) ≠ "" := by
      intro he
      have := congrArg String.data he
      simp only [hj] at this
      exact absurd this (by simp)
    have hc2 : path.cleanSegments false segs [] = segs := by simpa using hclean
    unfold path.Clean
    rw [if_neg hne']
    simp only [hdata, hhead, hseg, hc2, decide_False, Bool.false_eq_true, if_false, hbody]
    rfl

theorem String_length_pos_of_ne (a : String) (ha : a ≠ "") : 0 < a.length := by
  obtain ⟨l⟩ := a
  cases l with
  | nil => exact absurd rfl ha
  | cons c cs => simp [String.length]

theorem Join_pair (a b : String) (ha : a ≠ "") :
    path.Join [a, b] = path.Clean (a ++ "/" ++ b) := by
  have hlen := String_length_pos_of_ne a ha
  have hlen0 : a.length ≠ 0 := Nat.ne_of_gt hlen
  simp [path.Join, ha, hlen, hlen0]

theorem Join_triple (a b c : String) (ha : a ≠ "") :
    path.Join [a, b, c] = path.Clean (a ++ "/" ++ b ++ "/" ++ c) := by
  have hlen := String_length_pos_of_ne a ha
  have hlen0 : a.length ≠ 0 := Nat.ne_of_gt hlen
  have hlen2 : 0 < (a ++ "/" ++ b).length := by
    simp only [String.length_append]
    omega
  simp [path.Join, ha, hlen, hlen0, hlen2]

theorem pathOfSegments_ne_empty (rooted : Bool) (segs : List (List Char)) (hne : segs ≠ [])
    (h : ∀ seg ∈ segs, plainSegment seg = true) : pathOfSegments rooted segs ≠ "" := by
  obtain ⟨c, tl, _, hj⟩ := joinSegments_head segs hne h
  intro he
  have := congrArg String.data he
  simp only [pathOfSegments, hj] at this
  cases rooted <;> simp at this

theorem pathOfSegments_append (rooted : Bool) (segs : List (List Char)) (hne : segs ≠ [])
    (x : String) :
    pathOfSegments rooted segs ++ "/" ++ x = pathOfSegments rooted (segs ++ [x.data]) := by
  apply String.ext
  simp only [pathOfSegments, String.data_append, joinSegments_append_singleton segs x.data hne]
  simp

theorem plainSegment_file (slug : String) (h : '/' ∉ slug.data) :
    plainSegment (slug ++ ".md").data = true := by
  have hd : (slug ++ ".md").data = slug.data ++ ['.', 'm', 'd'] := by
    simp [String.data_append]
  have hlen : (slug.data ++ ['.', 'm', 'd']).length = slug.data.length + 3 := by simp
  rw [hd]
  simp only [plainSegment, Bool.and_eq_true, decide_eq_true_eq]
  refine ⟨⟨⟨?_, ?_⟩, ?_⟩, ?_⟩
  · intro he; rw [he] at hlen; simp at hlen
  · simp [h]
  · intro he; rw [he] at hlen; simp at hlen
  · intro he; rw [he] at hlen; simp at hlen

theorem Join_clean_root (rooted : Bool) (segs : List (List Char)) (hne : segs ≠ [])
    (h : ∀ seg ∈ segs, plainSegment seg = true) (x : String)
    (hx : plainSegment x.data = true) :
    path.Join [pathOfSegments rooted segs, x] = pathOfSegments rooted segs ++ "/" ++ x := by
  rw [Join_pair _ _ (pathOfSegments_ne_empty rooted segs hne h), pathOfSegments_append _ _ hne]
  apply Clean_pathOfSegments
  · simp
  · intro seg hseg
    rw [List.mem_append, List.mem_singleton] at hseg
    rcases hseg with hs | rfl
    · exact h seg hs
    · exact hx

theorem Join_clean_root_dir (rooted : Bool) (segs : List (List Char)) (hne : segs ≠ [])
    (h : ∀ seg ∈ segs, plainSegment seg = true) (d x : String)
    (hd : plainSegment d.data = true) (hx : plainSegment x.data = true) :
    path.Join [pathOfSegments rooted segs, d, x]
      = pathOfSegments rooted segs ++ "/" ++ d ++ "/" ++ x := by
  rw [Join_triple _ _ _ (pathOfSegments_ne_empty rooted segs hne h),
    pathOfSegments_append _ _ hne, pathOfSegments_append _ _ (by simp)]
  apply Clean_pathOfSegments
  · simp
  · intro seg hseg
    simp only [List.mem_append, List.mem_singleton] at hseg
    rcases hseg with (hs | rfl) | rfl
    · exact h seg hs
    · exact hd
    · exact hx

/-! ## Lemmas on the text of an identifier -/

theorem utf8_decode_ascii (raw : RawMessage) (h : ∀ b ∈ raw, b.toNat < 128) :
    utf8.decode utf8.idle raw = raw.map (fun b => Char.ofNat b.toNat) := by
  induction raw with
  | nil => rfl
  | cons b rest ih =>
    have hb : b.toNat < 128 := h b (List.mem_cons_self _ _)
    have hstep : utf8.step utf8.idle b.toNat = ([Char.ofNat b.toNat], utf8.idle) := by
      simp [utf8.step, utf8.idle, utf8.start, hb]
    simp only [utf8.decode, hstep, List.map_cons, List.singleton_append]
    rw [ih (fun x hx => h x (List.mem_cons_of_mem _ hx))]

theorem RawMessage_text_ascii (s : String) (h : ∀ c ∈ s.data, c.toNat < 128) :
    RawMessage.text (s.data.map (fun c => UInt8.ofNat c.toNat)) = s := by
  unfold RawMessage.text
  apply String.ext
  rw [utf8_decode_ascii]
  · rw [List.map_map]
    have : ∀ c ∈ s.data, ((fun b : UInt8 => Char.ofNat b.toNat) ∘ fun c : Char =>
        UInt8.ofNat c.toNat) c = c := by
      intro c hc
      have hlt := h c hc
      have h256 : c.toNat % 256 = c.toNat := Nat.mod_eq_of_lt (by omega)
      simp [Function.comp, UInt8.toNat, UInt8.ofNat, Fin.ofNat, h256]
    rw [List.map_congr_left this]
    simp
  · intro b hb
    rw [List.mem_map] at hb
    obtain ⟨c, hc, rfl⟩ := hb
    have hlt := h c hc
    have h256 : c.toNat % 256 = c.toNat := Nat.mod_eq_of_lt (by omega)
    simp [UInt8.toNat, UInt8.ofNat, Fin.ofNat, h256, hlt]

/-! ## Lemmas on the loops of `populate` -/

theorem authorLoop_frame (p : post) (us : List user) :
    populate.authorLoop p us = { p with Author := (populate.authorLoop p us).Author } := by
  induction us with
  | nil => rfl
  | cons u rest ih =>
    unfold populate.authorLoop
    split
    · rfl
    · exact ih

theorem authorLoop_first (p : post) (pre : List user) (u : user) (rest : List user)
    (hpre : ∀ v ∈ pre, v.ID ≠ p.AuthorID) (hu : u.ID = p.AuthorID) :
    (populate.authorLoop p (pre ++ u :: rest)).Author = u.Name := by
  induction pre with
  | nil => simp [populate.authorLoop, bytes_Equal_iff, hu]
  | cons v pre ih =>
    have hv : v.ID ≠ p.AuthorID := hpre v (List.mem_cons_self _ _)
    simp only [List.cons_append, populate.authorLoop, bytes_Equal_iff, hv, if_false]
    exact ih (fun w hw => hpre w (List.mem_cons_of_mem _ hw))

theorem authorLoop_none (p : post) (us : List user) (h : ∀ v ∈ us, v.ID ≠ p.AuthorID) :
    populate.authorLoop p us = p := by
  induction us with
  | nil => rfl
  | cons v rest ih =>
    have hv : v.ID ≠ p.AuthorID := h v (List.mem_cons_self _ _)
    simp only [populate.authorLoop, bytes_Equal_iff, hv, if_false]
    exact ih (fun w hw => h w (List.mem_cons_of_mem _ hw))

theorem tagLoop_eq (pt : posttag) (p : post) (ts : List tag) :
    populate.tagLoop pt p ts =
      { p with Tags := p.Tags ++
          (match ts.find? (fun t => decide (t.ID = pt.TagID)) with
            | some t => [dropLeadingSigil t.Name]
            | none => []) } := by
  induction ts with
  | nil => simp [populate.tagLoop]
  | cons t rest ih =>
    by_cases ht : t.ID = pt.TagID
    · simp [populate.tagLoop, bytes_Equal_iff, ht, List.find?, TrimPrefix_sigil]
    · simp only [populate.tagLoop, bytes_Equal_iff, ht, if_false, List.find?, decide_False]
      exact ih

theorem posttagLoop_eq (tags : List tag) (p : post) (pts : List posttag) :
    populate.posttagLoop tags p pts =
      { p with Tags := p.Tags ++ specTags ⟨[], tags, pts⟩ p } := by
  induction pts generalizing p with
  | nil => simp [populate.posttagLoop, specTags]
  | cons pt rest ih =>
    by_cases hpt : pt.PostID = p.ID
    · simp only [populate.posttagLoop, bytes_Equal_iff, hpt, if_true]
      rw [ih, tagLoop_eq]
      simp [specTags, hpt, List.filter]
    · simp only [populate.posttagLoop, bytes_Equal_iff, hpt, if_false]
      rw [ih]
      simp [specTags, hpt, List.filter]

theorem authorLoop_author_congr (p q : post) (us : List user)
    (hid : p.AuthorID = q.AuthorID) (ha : p.Author = q.Author) :
    (populate.authorLoop p us).Author = (populate.authorLoop q us).Author := by
  induction us with
  | nil => exact ha
  | cons u rest ih =>
    unfold populate.authorLoop
    rw [hid]
    split
    · rfl
    · exact ih

theorem specTags_congr (gi : ghostInfo) (us : List user) (p q : post) (hid : q.ID = p.ID) :
    specTags ⟨us, gi.tags, gi.posttags⟩ q = specTags gi p := by
  simp [specTags, hid]

theorem posttagLoop_Tags (tags : List tag) (p : post) (pts : List posttag) :
    (populate.posttagLoop tags p pts).Tags = p.Tags ++ specTags ⟨[], tags, pts⟩ p := by
  rw [posttagLoop_eq]

theorem posttagLoop_Author (tags : List tag) (p : post) (pts : List posttag) :
    (populate.posttagLoop tags p pts).Author = p.Author := by
  rw [posttagLoop_eq]

theorem posttagLoop_IsDraft (tags : List tag) (p : post) (pts : List posttag) :
    (populate.posttagLoop tags p pts).IsDraft = p.IsDraft := by
  rw [posttagLoop_eq]

theorem authorLoop_Tags (p : post) (us : List user) :
    (populate.authorLoop p us).Tags = p.Tags := by
  rw [authorLoop_frame]

theorem authorLoop_ID (p : post) (us : List user) :
    (populate.authorLoop p us).ID = p.ID := by
  rw [authorLoop_frame]

theorem authorLoop_IsDraft (p : post) (us : List user) :
    (populate.authorLoop p us).IsDraft = p.IsDraft := by
  rw [authorLoop_frame]

theorem populate_Tags (p : post) (gi : ghostInfo) (gth : Parsers) :
    (p.populate gi gth).Tags = p.Tags ++ specTags gi p := by
  unfold post.populate
  simp only [posttagLoop_Tags, authorLoop_Tags]
  congr 1
  exact specTags_congr gi [] p _ (authorLoop_ID _ _)

theorem populate_Author (p : post) (gi : ghostInfo) (gth : Parsers) :
    (p.populate gi gth).Author = (populate.authorLoop p gi.users).Author := by
  unfold post.populate
  simp only [posttagLoop_Author]
  exact authorLoop_author_congr _ p gi.users rfl rfl

theorem populate_IsDraft (p : post) (gi : ghostInfo) (gth : Parsers) :
    (p.populate gi gth).IsDraft = (p.Status == "draft") := by
  unfold post.populate
  simp only [posttagLoop_IsDraft, authorLoop_IsDraft]

theorem specTags_replicate (gi : ghostInfo) (p : post) (k : Nat) (pt : posttag) (t : tag)
    (hpts : gi.posttags = List.replicate k pt) (hpt : pt.PostID = p.ID)
    (ht : gi.tags.find? (fun t => decide (t.ID = pt.TagID)) = some t) :
    specTags gi p = List.replicate k (dropLeadingSigil t.Name) := by
  unfold specTags
  rw [hpts]
  clear hpts
  induction k with
  | zero => rfl
  | succ k ih =>
    simp only [List.replicate_succ, List.filter, hpt, decide_True, List.map_cons,
      List.flatten_cons, ht, List.singleton_append]
    rw [ih]

theorem mem_specTags (gi : ghostInfo) (p : post) (x : String) (hx : x ∈ specTags gi p) :
    ∃ t ∈ gi.tags, x = strings.TrimPrefix t.Name "#" := by
  unfold specTags at hx
  rw [List.mem_flatten] at hx
  obtain ⟨l, hl, hxl⟩ := hx
  rw [List.mem_map] at hl
  obtain ⟨pt, -, rfl⟩ := hl
  cases hfind : gi.tags.find? (fun t => decide (t.ID = pt.TagID)) with
  | none => rw [hfind] at hxl; simp at hxl
  | some t =>
    rw [hfind] at hxl
    simp only [List.mem_singleton] at hxl
    exact ⟨t, List.mem_of_find?_eq_some hfind, by rw [hxl, TrimPrefix_sigil]⟩

/-! ## Sample data -/

/-- A post with id `1` written by the author with id `7`. -/
def samplePost : post :=
  { post.zero with ID := [1], Status := "draft", AuthorID := [7] }

/-- Two users share the id `7`; the link rows of post `1` name tag `3` twice,
tag `4` once and the unknown tag `9` once. -/
def sampleInfo : ghostInfo :=
  { users := [⟨[7], "ann"⟩, ⟨[7], "bob"⟩]
    tags := [⟨[3], "#go"⟩, ⟨[4], "##x"⟩, ⟨[3], "shadowed"⟩]
    posttags := [⟨[1], [3]⟩, ⟨[2], [4]⟩, ⟨[1], [9]⟩, ⟨[1], [4]⟩, ⟨[1], [3]⟩] }

/-- The verb `%.0f` on a number: the nearest integer, ties going to the even
one, and `-0` for a negative number that rounds to zero. -/
def roundHalfEven (x : Rat) : String :=
  let q : Int := x.num / (x.den : Int)
  let r : Int := x.num % (x.den : Int)
  let n : Int :=
    if 2 * r < (x.den : Int) then q
    else if (x.den : Int) < 2 * r then q + 1
    else if q % 2 = 0 then q else q + 1
  if n = 0 ∧ x.num < 0 then "-0" else toString n

/-- A stand-in for the `fmt` library used to evaluate the renderers at
concrete payloads; every property below is proved for an arbitrary `Fmt`. -/
def Fmt.sample : Fmt :=
  { verbS := fun v =>
      match v with
      | .null => "%!s(<nil>)"
      | .bool true => "%!s(bool=true)"
      | .bool false => "%!s(bool=false)"
      | _ => "%!s(?)"
    verbQ := fun s => "\"" ++ s ++ "\""
    verbF0 := roundHalfEven }

/-! ## Card renderers and malformed payloads -/

/-- C1: the renderers are not total on dynamically typed payloads.  On the
object payload whose `html` field is the number 1 the single-valued assertion
`html.(string)` fails and `cardHTML` panics instead of returning the empty
string; `cardCode` panics on an object payload without a `code` field and on
one whose `language` is null. -/
theorem cardHTML_cardCode_panic_on_malformed_payload :
    cardHTML (.obj [("html", .num 1)]) = .panic [] ∧
    cardCode (.obj []) = .panic [] ∧
    cardCode (.obj [("language", .null), ("code", .str "x")]) = .panic [] := by
  decide

/-! ## Identity joins of `populate` -/

/-- C2: for a post whose `Tags` is initially empty, after `populate` the tags
are exactly the list obtained by walking the link rows in order, keeping the
rows of this post and appending for each the name (one leading `#` removed) of
the first tag with the row's tag id, nothing when there is none; `k` copies of
a link to an existing tag give `k` equal entries. -/
theorem populate_tags_follow_links (p : post) (gi : ghostInfo) (gth : Parsers)
    (h : p.Tags = []) :
    (p.populate gi gth).Tags = specTags gi p ∧
    ∀ (k : Nat) (pt : posttag) (t : tag),
      gi.posttags = List.replicate k pt → pt.PostID = p.ID →
      gi.tags.find? (fun t => decide (t.ID = pt.TagID)) = some t →
      (p.populate gi gth).Tags = List.replicate k (dropLeadingSigil t.Name) := by
  have hT : (p.populate gi gth).Tags = specTags gi p := by
    rw [populate_Tags, h, List.nil_append]
  refine ⟨hT, ?_⟩
  intro k pt t hpts hpt ht
  rw [hT]
  exact specTags_replicate gi p k pt t hpts hpt ht

/-- Witness of C2 on the sample export: the unknown tag `9` and the row of post
`2` contribute nothing, the duplicate link to tag `3` contributes twice, and
the first tag with id `3` wins. -/
theorem populate_tags_follow_links_witness :
    samplePost.Tags = [] ∧
    (samplePost.populate sampleInfo Parsers.sample).Tags = ["go", "#x", "go"] :=
  ⟨by decide,
    (populate_tags_follow_links samplePost sampleInfo Parsers.sample (by decide)).1.trans
      (by decide)⟩

/-- C3: `populate` resolves at most one author.  When the user `u` is the
first one in collection order whose id is byte-equal to the post's `AuthorID`,
`Author` becomes `u.Name`; when no user has that id, `Author` is left as it
was (so an empty `Author` stays empty).  `populate` is a total function, no
error is raised. -/
theorem populate_author_first_match (p : post) (gi : ghostInfo) (gth : Parsers) :
    (∀ (pre : List user) (u : user) (rest : List user),
      gi.users = pre ++ u :: rest → (∀ v ∈ pre, v.ID ≠ p.AuthorID) → u.ID = p.AuthorID →
      (p.populate gi gth).Author = u.Name) ∧
    ((∀ v ∈ gi.users, v.ID ≠ p.AuthorID) → (p.populate gi gth).Author = p.Author) ∧
    ((∀ v ∈ gi.users, v.ID ≠ p.AuthorID) → p.Author = "" →
      (p.populate gi gth).Author = "") := by
  refine ⟨?_, ?_, ?_⟩
  · intro pre u rest hus hpre hu
    rw [populate_Author, hus]
    exact authorLoop_first p pre u rest hpre hu
  · intro hnone
    rw [populate_Author, authorLoop_none p gi.users hnone]
  · intro hnone hempty
    rw [populate_Author, authorLoop_none p gi.users hnone, hempty]

/-- Witness of C3: of the two users with id `7` the first one, `ann`, is the
author; with no users at all the author stays empty. -/
theorem populate_author_first_match_witness :
    (samplePost.populate sampleInfo Parsers.sample).Author = "ann" ∧
    (samplePost.populate ⟨[], [], []⟩ Parsers.sample).Author = "" :=
  ⟨(populate_author_first_match samplePost sampleInfo Parsers.sample).1
      [] ⟨[7], "ann"⟩ [⟨[7], "bob"⟩] rfl (by simp) rfl,
    (populate_author_first_match samplePost ⟨[], [], []⟩ Parsers.sample).2.2
      (by simp) rfl⟩

/-- C4: after `populate`, `IsDraft` is true exactly when `Status` is the
string `draft`; the statuses `Draft`, `DRAFT`, `draft ` (trailing blank) and
the empty string all give false. -/
theorem populate_isDraft_iff (p : post) (gi : ghostInfo) (gth : Parsers) :
    ((p.populate gi gth).IsDraft = true ↔ p.Status = "draft") ∧
    (({ p with Status := "draft" }).populate gi gth).IsDraft = true ∧
    (({ p with Status := "Draft" }).populate gi gth).IsDraft = false ∧
    (({ p with Status := "DRAFT" }).populate gi gth).IsDraft = false ∧
    (({ p with Status := "draft " }).populate gi gth).IsDraft = false ∧
    (({ p with Status := "" }).populate gi gth).IsDraft = false := by
  refine ⟨?_, ?_, ?_, ?_, ?_, ?_⟩
  · rw [populate_IsDraft]; exact beq_iff_eq
  · rw [populate_IsDraft]; exact (by decide : ("draft" == "draft") = true)
  · rw [populate_IsDraft]; exact (by decide : ("Draft" == "draft") = false)
  · rw [populate_IsDraft]; exact (by decide : ("DRAFT" == "draft") = false)
  · rw [populate_IsDraft]; exact (by decide : ("draft " == "draft") = false)
  · rw [populate_IsDraft]; exact (by decide : ("" == "draft") = false)

/-! ## Front matter -/

/-- The entries `metadata()` writes for the image: from `Image` when it is not
empty, else from `FeaturedImage` when that is not empty, else none. -/
def imageEntries (p : post) : GoMap MetaValue :=
  if p.Image ≠ "" then [("image", .str (stripContentFolder p.Image))]
  else if p.FeaturedImage ≠ "" then [("image", .str (stripContentFolder p.FeaturedImage))]
  else []

/-- The entries `metadata()` writes for the tags. -/
def tagEntries (p : post) : GoMap MetaValue :=
  if p.Tags ≠ [] then [("tags", .strs p.Tags), ("categories", .strs p.Tags)] else []

/-- The entry `metadata()` writes for the author. -/
def authorEntries (p : post) : GoMap MetaValue :=
  if p.Author ≠ "" then [("author", .str p.Author)] else []

theorem metadata_eq (p : post) :
    p.metadata =
      [("date", .time (if p.IsDraft then p.Created else p.Published)),
        ("title", .str p.Title), ("draft", .bool p.IsDraft), ("slug", .str p.Slug),
        ("description", .str p.MetaDescription)]
      ++ imageEntries p ++ tagEntries p ++ authorEntries p := by
  unfold post.metadata imageEntries tagEntries authorEntries
  have hlen : p.Tags.length > 0 ↔ p.Tags ≠ [] := by
    rw [gt_iff_lt, List.length_pos]
  cases hd : p.IsDraft <;> by_cases hi : p.Image = "" <;> by_cases hf : p.FeaturedImage = ""
    <;> by_cases ht : p.Tags = [] <;> by_cases ha : p.Author = ""
    <;> simp [GoMap.set, hi, hf, ht, ha, hlen]

theorem metadata_get_image (p : post) :
    GoMap.get p.metadata "image" =
      if p.Image ≠ "" then some (.str (stripContentFolder p.Image))
      else if p.FeaturedImage ≠ "" then some (.str (stripContentFolder p.FeaturedImage))
      else none := by
  rw [metadata_eq]
  unfold imageEntries tagEntries authorEntries
  by_cases hi : p.Image = "" <;> by_cases hf : p.FeaturedImage = ""
    <;> by_cases ht : p.Tags = [] <;> by_cases ha : p.Author = ""
    <;> simp [GoMap.get, List.lookup, hi, hf, ht, ha]

theorem metadata_get_tags (p : post) :
    GoMap.get p.metadata "tags" = (if p.Tags ≠ [] then some (.strs p.Tags) else none) ∧
    GoMap.get p.metadata "categories" = (if p.Tags ≠ [] then some (.strs p.Tags) else none) := by
  rw [metadata_eq]
  unfold imageEntries tagEntries authorEntries
  by_cases hi : p.Image = "" <;> by_cases hf : p.FeaturedImage = ""
    <;> by_cases ht : p.Tags = [] <;> by_cases ha : p.Author = ""
    <;> simp [GoMap.get, List.lookup, hi, hf, ht, ha]

theorem metadata_get_author (p : post) :
    GoMap.get p.metadata "author" = if p.Author ≠ "" then some (.str p.Author) else none := by
  rw [metadata_eq]
  unfold imageEntries tagEntries authorEntries
  by_cases hi : p.Image = "" <;> by_cases hf : p.FeaturedImage = ""
    <;> by_cases ht : p.Tags = [] <;> by_cases ha : p.Author = ""
    <;> simp [GoMap.get, List.lookup, hi, hf, ht, ha]

theorem mem_keys_imageEntries (p : post) (k : String) :
    k ∈ GoMap.keys (imageEntries p) ↔ k = "image" ∧ (p.Image ≠ "" ∨ p.FeaturedImage ≠ "") := by
  unfold imageEntries
  by_cases hi : p.Image = "" <;> by_cases hf : p.FeaturedImage = ""
    <;> simp [GoMap.keys, hi, hf]

theorem mem_keys_tagEntries (p : post) (k : String) :
    k ∈ GoMap.keys (tagEntries p) ↔ (k = "tags" ∨ k = "categories") ∧ p.Tags ≠ [] := by
  unfold tagEntries
  by_cases ht : p.Tags = [] <;> simp [GoMap.keys, ht]

theorem mem_keys_authorEntries (p : post) (k : String) :
    k ∈ GoMap.keys (authorEntries p) ↔ k = "author" ∧ p.Author ≠ "" := by
  unfold authorEntries
  by_cases ha : p.Author = "" <;> simp [GoMap.keys, ha]

theorem metadata_keys_eq (p : post) :
    GoMap.keys p.metadata =
      ["date", "title", "draft", "slug", "description"] ++ GoMap.keys (imageEntries p)
        ++ GoMap.keys (tagEntries p) ++ GoMap.keys (authorEntries p) := by
  rw [metadata_eq]
  simp [GoMap.keys]

theorem metadata_keys_nodup (p : post) : (GoMap.keys p.metadata).Nodup := by
  rw [metadata_keys_eq]
  unfold imageEntries tagEntries authorEntries
  by_cases hi : p.Image = "" <;> by_cases hf : p.FeaturedImage = ""
    <;> by_cases ht : p.Tags = [] <;> by_cases ha : p.Author = ""
    <;> simp only [hi, hf, ht, ha, ne_eq, not_true_eq_false, not_false_eq_true, if_true,
      if_false, GoMap.keys, List.map_cons, List.map_nil, List.cons_append, List.nil_append,
      List.append_nil]
    <;> decide

/-- A published post with an image under the content folder, one tag and an
author. -/
def sampleFront : post :=
  { post.zero with
    Title := "Hello", Slug := "hello", MetaDescription := "first post",
    Image := "/content/images/a.png", FeaturedImage := "/content/images/b.png",
    Published := ⟨1600000000, 0⟩, Created := ⟨1500000000, 0⟩,
    Author := "ann", Tags := ["go"] }

/-- C5: in the result of `metadata()` the key `date` holds `Created` when
`IsDraft` is true and `Published` when it is false, `draft` holds `IsDraft`,
and `title`, `slug` and `description` hold `Title`, `Slug` and
`MetaDescription` unchanged. -/
theorem metadata_date_and_copies (p : post) :
    GoMap.get p.metadata "date" =
      some (.time (if p.IsDraft = true then p.Created else p.Published)) ∧
    GoMap.get p.metadata "draft" = some (.bool p.IsDraft) ∧
    GoMap.get p.metadata "title" = some (.str p.Title) ∧
    GoMap.get p.metadata "slug" = some (.str p.Slug) ∧
    GoMap.get p.metadata "description" = some (.str p.MetaDescription) := by
  rw [metadata_eq]
  simp [GoMap.get, List.lookup]

/-- C6: the keys of `metadata()` are `date`, `title`, `draft`, `slug`,
`description`, plus `image` exactly when `Image` or `FeaturedImage` is not
empty (from `Image` when that is not empty, else from `FeaturedImage`), plus
`tags` and `categories` exactly when `Tags` is not empty, both holding `Tags`,
plus `author` exactly when `Author` is not empty; no key occurs twice. -/
theorem metadata_key_set (p : post) :
    (∀ k : String, k ∈ GoMap.keys p.metadata ↔
      (k ∈ ["date", "title", "draft", "slug", "description"] ∨
        (k = "image" ∧ (p.Image ≠ "" ∨ p.FeaturedImage ≠ "")) ∨
        ((k = "tags" ∨ k = "categories") ∧ p.Tags ≠ []) ∨
        (k = "author" ∧ p.Author ≠ ""))) ∧
    (GoMap.keys p.metadata).Nodup ∧
    (p.Image ≠ "" →
      GoMap.get p.metadata "image" = some (.str (stripContentFolder p.Image))) ∧
    (p.Image = "" → p.FeaturedImage ≠ "" →
      GoMap.get p.metadata "image" = some (.str (stripContentFolder p.FeaturedImage))) ∧
    (p.Tags ≠ [] →
      GoMap.get p.metadata "tags" = some (.strs p.Tags) ∧
      GoMap.get p.metadata "categories" = some (.strs p.Tags)) ∧
    (p.Author ≠ "" → GoMap.get p.metadata "author" = some (.str p.Author)) := by
  refine ⟨?_, metadata_keys_nodup p, ?_, ?_, ?_, ?_⟩
  · intro k
    rw [metadata_keys_eq]
    simp only [List.mem_append, mem_keys_imageEntries, mem_keys_tagEntries,
      mem_keys_authorEntries, or_assoc]
  · intro hi
    rw [metadata_get_image, if_pos hi]
  · intro hi hf
    rw [metadata_get_image, if_neg (not_not.2 hi), if_pos hf]
  · intro ht
    rw [(metadata_get_tags p).1, (metadata_get_tags p).2, if_pos ht]
    exact ⟨rfl, rfl⟩
  · intro ha
    rw [metadata_get_author, if_pos ha]

/-- Witness of C6 on the sample post: the image comes from `Image` although
`FeaturedImage` is set too, the tag list is stored under both keys and the
author is stored. -/
theorem metadata_key_set_witness :
    GoMap.get sampleFront.metadata "image" = some (.str "/images/a.png") ∧
    (GoMap.get sampleFront.metadata "tags" = some (.strs ["go"]) ∧
      GoMap.get sampleFront.metadata "categories" = some (.strs ["go"])) ∧
    GoMap.get sampleFront.metadata "author" = some (.str "ann") ∧
    GoMap.get ({ post.zero with FeaturedImage := "/content/b.png" }).metadata "image"
      = some (.str "/b.png") :=
  ⟨((metadata_key_set sampleFront).2.2.1 (by decide)).trans (by decide),
    (metadata_key_set sampleFront).2.2.2.2.1 (by decide),
    (metadata_key_set sampleFront).2.2.2.2.2 (by decide),
    ((metadata_key_set { post.zero with FeaturedImage := "/content/b.png" }).2.2.2.1
      (by decide) (by decide)).trans (by decide)⟩

/-- C7, as stated, fails: a post whose `Image` is exactly `/content` gets the
key `image` with the empty string as its value. -/
theorem metadata_image_empty_value :
    "image" ∈ GoMap.keys ({ post.zero with Image := "/content" }).metadata ∧
    GoMap.get ({ post.zero with Image := "/content" }).metadata "image" = some (.str "") := by
  decide

/-- C7, amended: whenever `author`, `tags` or `categories` is present in the
result of `metadata()` its value is the non-empty `Author`, respectively the
non-empty `Tags`; whenever `image` is present its value is
`stripContentFolder` of a non-empty source (`Image`, or `FeaturedImage` when
`Image` is empty), and that value is empty exactly when the source is
`/content`. -/
theorem metadata_optional_values (p : post) :
    (∀ v, GoMap.get p.metadata "author" = some v → v = .str p.Author ∧ p.Author ≠ "") ∧
    (∀ v, GoMap.get p.metadata "tags" = some v → v = .strs p.Tags ∧ p.Tags ≠ []) ∧
    (∀ v, GoMap.get p.metadata "categories" = some v → v = .strs p.Tags ∧ p.Tags ≠ []) ∧
    (∀ v, GoMap.get p.metadata "image" = some v →
      ∃ src : String, src ≠ "" ∧ (src = p.Image ∨ (p.Image = "" ∧ src = p.FeaturedImage)) ∧
        v = .str (stripContentFolder src) ∧
        (stripContentFolder src = "" ↔ src = "/content")) := by
  have hstrip : ∀ src : String, src ≠ "" →
      (stripContentFolder src = "" ↔ src = "/content") := by
    intro src hsrc
    unfold stripContentFolder
    rw [TrimPrefix_eq_empty_iff]
    exact ⟨fun h => h.resolve_left hsrc, Or.inr⟩
  refine ⟨?_, ?_, ?_, ?_⟩
  · intro v hv
    rw [metadata_get_author] at hv
    by_cases ha : p.Author = ""
    · rw [if_neg (not_not.2 ha)] at hv
      exact absurd hv (by simp)
    · rw [if_pos ha] at hv
      exact ⟨(Option.some.inj hv).symm, ha⟩
  · intro v hv
    rw [(metadata_get_tags p).1] at hv
    by_cases ht : p.Tags = []
    · rw [if_neg (not_not.2 ht)] at hv
      exact absurd hv (by simp)
    · rw [if_pos ht] at hv
      exact ⟨(Option.some.inj hv).symm, ht⟩
  · intro v hv
    rw [(metadata_get_tags p).2] at hv
    by_cases ht : p.Tags = []
    · rw [if_neg (not_not.2 ht)] at hv
      exact absurd hv (by simp)
    · rw [if_pos ht] at hv
      exact ⟨(Option.some.inj hv).symm, ht⟩
  · intro v hv
    rw [metadata_get_image] at hv
    by_cases hi : p.Image = ""
    · rw [if_neg (not_not.2 hi)] at hv
      by_cases hf : p.FeaturedImage = ""
      · rw [if_neg (not_not.2 hf)] at hv
        exact absurd hv (by simp)
      · rw [if_pos hf] at hv
        exact ⟨p.FeaturedImage, hf, Or.inr ⟨hi, rfl⟩, (Option.some.inj hv).symm,
          hstrip _ hf⟩
    · rw [if_pos hi] at hv
      exact ⟨p.Image, hi, Or.inl rfl, (Option.some.inj hv).symm, hstrip _ hi⟩

/-- Witness of the amended C7 on the sample post, whose `author` key is
present. -/
theorem metadata_optional_values_witness :
    GoMap.get sampleFront.metadata "author" = some (.str "ann") ∧
    (MetaValue.str "ann" = .str sampleFront.Author ∧ sampleFront.Author ≠ "") :=
  ⟨by decide, (metadata_optional_values sampleFront).1 (.str "ann") (by decide)⟩

/-! ## `stripContentFolder` and the tag sigil -/

/-- C8, as stated, fails: `/contents/a.png` is neither `/content` nor starts
with `/content/`, yet `stripContentFolder` does not return it unchanged: it
returns `s/a.png`. -/
theorem stripContentFolder_cuts_inside_segment :
    "/contents/a.png" ≠ "/content" ∧
    strings.HasPrefix "/contents/a.png" "/content/" = false ∧
    stripContentFolder "/contents/a.png" = "s/a.png" ∧
    stripContentFolder "/contents/a.png" ≠ "/contents/a.png" := by
  decide

/-- C8, amended: `stripContentFolder` removes the eight leading characters
`/content` from every string that starts with them, whatever follows (so also
from `/content` itself and from strings starting with `/content/`), and
returns every other string unchanged. -/
theorem stripContentFolder_spec (s : String) :
    (∀ r : String, s = "/content" ++ r →
      stripContentFolder s = r ∧ stripContentFolder s = ⟨s.data.drop 8⟩) ∧
    ((¬ ∃ r : String, s = "/content" ++ r) → stripContentFolder s = s) := by
  constructor
  · rintro r rfl
    refine ⟨TrimPrefix_append _ _, ?_⟩
    unfold stripContentFolder
    rw [TrimPrefix_append]
    exact String.ext (by simp [String.data_append])
  · intro h
    exact TrimPrefix_of_not_HasPrefix s _ h

/-- Witness of the amended C8: a path under the content folder loses the
folder, a path elsewhere is returned as it is. -/
theorem stripContentFolder_spec_witness :
    (stripContentFolder "/content/images/a.png" = "/images/a.png" ∧
      stripContentFolder "/content/images/a.png"
        = ⟨("/content/images/a.png" : String).data.drop 8⟩) ∧
    stripContentFolder "images/a.png" = "images/a.png" :=
  ⟨(stripContentFolder_spec "/content/images/a.png").1 "/images/a.png" (by decide),
    (stripContentFolder_spec "images/a.png").2
      (fun h => absurd ((HasPrefix_iff _ _).2 h) (by decide))⟩

/-- C9: every name `populate` attaches is the name of a tag with the sigil
`#` removed by `strings.TrimPrefix`, that is from the leading position only
and at most once: a name `#r` is attached as `r`, a name that does not start
with `#` is attached unchanged; `#golang` gives `golang`, `golang` and
`go#lang` are unchanged and `##x` gives `#x`. -/
theorem populate_tag_sigil (p : post) (gi : ghostInfo) (gth : Parsers) :
    (∀ x ∈ (p.populate gi gth).Tags,
      x ∈ p.Tags ∨ ∃ t ∈ gi.tags, x = strings.TrimPrefix t.Name "#") ∧
    (∀ (us : List user) (t : tag) (pt : posttag), pt.PostID = p.ID → t.ID = pt.TagID →
      (p.populate ⟨us, [t], [pt]⟩ gth).Tags = p.Tags ++ [strings.TrimPrefix t.Name "#"]) ∧
    (∀ r : String, strings.TrimPrefix ("#" ++ r) "#" = r) ∧
    (∀ n : String, (¬ ∃ r : String, n = "#" ++ r) → strings.TrimPrefix n "#" = n) ∧
    strings.TrimPrefix "#golang" "#" = "golang" ∧
    strings.TrimPrefix "golang" "#" = "golang" ∧
    strings.TrimPrefix "go#lang" "#" = "go#lang" ∧
    strings.TrimPrefix "##x" "#" = "#x" := by
  refine ⟨?_, ?_, fun r => TrimPrefix_append _ r,
    fun n h => TrimPrefix_of_not_HasPrefix n _ h, by decide, by decide, by decide, by decide⟩
  · intro x hx
    rw [populate_Tags, List.mem_append] at hx
    exact hx.imp id (mem_specTags gi p x)
  · intro us t pt hpt ht
    rw [populate_Tags]
    simp [specTags, hpt, ht, TrimPrefix_sigil]

/-- Witness of C9: the post linked to the single tag `#golang` gets the tag
`golang`, and a name without a leading sigil is kept. -/
theorem populate_tag_sigil_witness :
    (samplePost.populate ⟨[], [⟨[3], "#golang"⟩], [⟨[1], [3]⟩]⟩ Parsers.sample).Tags
      = samplePost.Tags ++ [strings.TrimPrefix "#golang" "#"] ∧
    strings.TrimPrefix "go#lang" "#" = "go#lang" :=
  ⟨(populate_tag_sigil samplePost sampleInfo Parsers.sample).2.1
      [] ⟨[3], "#golang"⟩ ⟨[1], [3]⟩ rfl rfl,
    (populate_tag_sigil samplePost sampleInfo Parsers.sample).2.2.2.1 "go#lang"
      (fun h => absurd ((HasPrefix_iff _ _).2 h) (by decide))⟩

/-! ## The image card -/

/-- C10: on an object payload, `cardImage` returns the empty string and logs
exactly one diagnostic when `src` is absent; when `src` and `caption` are
present it returns the figure shortcode with both, and when only `src` is
present the shortcode with the source alone, each followed by one newline and
with nothing logged.  The source is not stripped: `/content/images/a.png`
with caption `A` is rendered with the full path. -/
theorem cardImage_contract (f : Fmt) (m : List (String × Value)) :
    (m.lookup "src" = none →
      cardImage f (.obj m) = .ret "" ["ERROR image card missing source"]) ∧
    (∀ src caption : Value, m.lookup "src" = some src → m.lookup "caption" = some caption →
      cardImage f (.obj m) =
        .ret ("\x7b\x7b< figure src=\"" ++ f.sprintS src ++ "\" caption=\""
          ++ f.sprintS caption ++ "\" >\x7d\x7d\n") []) ∧
    (∀ src : Value, m.lookup "src" = some src → m.lookup "caption" = none →
      cardImage f (.obj m) =
        .ret ("\x7b\x7b< figure src=\"" ++ f.sprintS src ++ "\" >\x7d\x7d\n") []) ∧
    (∀ s : String, f.sprintS (.str s) = s) ∧
    cardImage f (.obj [("src", .str "/content/images/a.png"), ("caption", .str "A")]) =
      .ret "\x7b\x7b< figure src=\"/content/images/a.png\" caption=\"A\" >\x7d\x7d\n" [] := by
  refine ⟨?_, ?_, ?_, fun _ => rfl, rfl⟩
  · intro h
    simp only [cardImage, Value.asMap, h]
  · intro src caption hs hc
    simp only [cardImage, Value.asMap, hs, hc]
  · intro src hs hc
    simp only [cardImage, Value.asMap, hs, hc]

/-- Witness of C10: a payload without `src` logs one diagnostic, a payload
with `src` only gives the short form and one with both gives the long form. -/
theorem cardImage_contract_witness :
    cardImage Fmt.sample (.obj [("caption", .str "A")])
      = .ret "" ["ERROR image card missing source"] ∧
    cardImage Fmt.sample (.obj [("src", .str "a.png"), ("caption", .str "A")])
      = .ret ("\x7b\x7b< figure src=\"" ++ Fmt.sample.sprintS (.str "a.png") ++ "\" caption=\""
          ++ Fmt.sample.sprintS (.str "A") ++ "\" >\x7d\x7d\n") [] ∧
    cardImage Fmt.sample (.obj [("src", .str "a.png")])
      = .ret ("\x7b\x7b< figure src=\"" ++ Fmt.sample.sprintS (.str "a.png")
          ++ "\" >\x7d\x7d\n") [] :=
  ⟨(cardImage_contract Fmt.sample [("caption", .str "A")]).1 rfl,
    (cardImage_contract Fmt.sample [("src", .str "a.png"), ("caption", .str "A")]).2.1
      (.str "a.png") (.str "A") rfl rfl,
    (cardImage_contract Fmt.sample [("src", .str "a.png")]).2.2.1
      (.str "a.png") rfl rfl⟩

/-! ## The code card -/

/-- C11: on an object payload with a string `code` and a `language` that is
absent or a string, `cardCode` returns three backticks, the language if
present, a newline, the code, a newline, three backticks and a newline, and
nothing else; the payload with language `go` and code `fmt.Println(1)` gives
the fenced block with `go` right after the opening fence. -/
theorem cardCode_fenced (m : List (String × Value)) (code : String)
    (hcode : m.lookup "code" = some (.str code)) :
    (m.lookup "language" = none →
      cardCode (.obj m) = .ret ("```" ++ "\n" ++ code ++ "\n" ++ "```" ++ "\n") []) ∧
    (∀ lang : String, m.lookup "language" = some (.str lang) →
      cardCode (.obj m) = .ret ("```" ++ lang ++ "\n" ++ code ++ "\n" ++ "```" ++ "\n") []) ∧
    cardCode (.obj [("language", .str "go"), ("code", .str "fmt.Println(1)")])
      = .ret "```go\nfmt.Println(1)\n```\n" [] := by
  refine ⟨?_, ?_, by decide⟩
  · intro hl
    simp only [cardCode, Value.asMap, hl, hcode, Value.asString, Option.getD_some, Option.pure_def,
      Option.bind_eq_bind, Option.some_bind]
    congr 1
    apply String.ext
    simp only [String.data_append, List.append_assoc]
    rfl
  · intro lang hl
    simp only [cardCode, Value.asMap, hl, hcode, Value.asString, Option.getD_some, Option.pure_def,
      Option.bind_eq_bind, Option.some_bind]
    congr 1
    apply String.ext
    simp only [String.data_append, List.append_assoc]
    rfl

/-- Witness of C11: a payload with code only, and one with a language. -/
theorem cardCode_fenced_witness :
    cardCode (.obj [("code", .str "x := 1")])
      = .ret ("```" ++ "\n" ++ "x := 1" ++ "\n" ++ "```" ++ "\n") [] ∧
    cardCode (.obj [("code", .str "x := 1"), ("language", .str "go")])
      = .ret ("```" ++ "go" ++ "\n" ++ "x := 1" ++ "\n" ++ "```" ++ "\n") [] :=
  ⟨(cardCode_fenced [("code", .str "x := 1")] "x := 1" rfl).1 rfl,
    (cardCode_fenced [("code", .str "x := 1"), ("language", .str "go")] "x := 1" rfl).2.1
      "go" rfl⟩

/-! ## The gallery card -/

/-- A well-formed image object of a gallery, 600 by 400, under the content
folder. -/
def sampleImage (name : String) : Value :=
  .obj [("src", .str ("/content/images/" ++ name)), ("width", .num 600), ("height", .num 400)]

/-- Seven well-formed images. -/
def sampleImages7 : List Value :=
  [sampleImage "a.png", sampleImage "b.png", sampleImage "c.png", sampleImage "d.png",
    sampleImage "e.png", sampleImage "f.png", sampleImage "g.png"]

/-- Three well-formed images. -/
def sampleImages3 : List Value :=
  [sampleImage "a.png", sampleImage "b.png", sampleImage "c.png"]

/-- Five entries, the second of which is a string instead of an object. -/
def sampleEntries5 : List Value :=
  [sampleImage "a.png", .str "oops", sampleImage "c.png", sampleImage "d.png",
    sampleImage "e.png"]

/-- For a gallery payload whose `images` is a sequence of `n ≥ 1` well-formed
image objects and whose caption is absent or a string, `cardGallery` returns,
inside the frame, the images cut in order into rows of three separated by row
boundaries: `(n + 2) / 3` rows, every row but the last of 3 images, the last
of `n - 3 * ((n + 2) / 3 - 1)`. -/
theorem gallery_rows_of_three (f : Fmt) (m : List (String × Value)) (imgs : List Value)
    (him : m.lookup "images" = some (.arr imgs))
    (hwf : ∀ e ∈ imgs, wellFormedImage e = true)
    (hn : 1 ≤ imgs.length)
    (hcap : captionWellTyped m = true) :
    cardGallery f (.obj m)
      = .ret (galleryFrame (renderRows (rowsOf3 (imgs.map (imageMarkup f))))
          (galleryCaption m)) [] ∧
    (rowsOf3 (imgs.map (imageMarkup f))).flatten = imgs.map (imageMarkup f) ∧
    (rowsOf3 (imgs.map (imageMarkup f))).length = (imgs.length + 2) / 3 ∧
    (∀ r ∈ (rowsOf3 (imgs.map (imageMarkup f))).dropLast, r.length = 3) ∧
    ((rowsOf3 (imgs.map (imageMarkup f))).getLast?).map List.length
      = some (imgs.length - 3 * ((imgs.length + 2) / 3 - 1)) := by
  have hadm : ∀ e ∈ imgs, admissibleEntry e = true := by
    intro e he
    have := hwf e he
    cases e <;> first | exact this | simp [wellFormedImage] at this
  have hne : imgs.map (imageMarkup f) ≠ [] := by
    intro h
    rw [List.map_eq_nil_iff] at h
    rw [h] at hn
    simp at hn
  refine ⟨?_, rowsOf3_flatten _, ?_, rowsOf3_dropLast _, ?_⟩
  · rw [cardGallery_eq f m imgs him hadm hcap, renderBefore_zero_rows]
  · rw [rowsOf3_length, List.length_map]
  · have := rowsOf3_getLast (imgs.map (imageMarkup f)) hne
    rw [List.length_map] at this
    exact this

set_option maxRecDepth 100000 in
/-- C12: on the gallery payload with one well-formed image, and on the one
with seven, a `caption` that is null makes `cardGallery` panic on the
assertion `caption.(string)` after the rows were written, where the claim has
the images grouped into rows; without the caption the one image is returned in
one row and the seven images in rows of 3, 3 and 1. -/
theorem cardGallery_caption_null_panics :
    cardGallery Fmt.sample (.obj [("images", .arr [sampleImage "a.png"]), ("caption", .null)])
      = .panic [] ∧
    cardGallery Fmt.sample (.obj [("images", .arr sampleImages7), ("caption", .null)])
      = .panic [] ∧
    cardGallery Fmt.sample (.obj [("images", .arr [sampleImage "a.png"])])
      = .ret ("<figure>\n  <div>\n    <div>\n"
          ++ "      <div><img src=\"/images/a.png\" width=\"600\" height=\"400\"/></div>\n"
          ++ "    </div>\n  </div>\n</figure>") [] ∧
    cardGallery Fmt.sample (.obj [("images", .arr sampleImages7)])
      = .ret (galleryFrame
          (renderRows
            [[imageMarkup Fmt.sample (sampleImage "a.png"),
                imageMarkup Fmt.sample (sampleImage "b.png"),
                imageMarkup Fmt.sample (sampleImage "c.png")],
              [imageMarkup Fmt.sample (sampleImage "d.png"),
                imageMarkup Fmt.sample (sampleImage "e.png"),
                imageMarkup Fmt.sample (sampleImage "f.png")],
              [imageMarkup Fmt.sample (sampleImage "g.png")]])
          none) [] := by
  decide

set_option maxRecDepth 100000 in
/-- C13, as stated, fails: with three well-formed images the claim puts a row
boundary after the image of index 2, the last one; `cardGallery` writes the
three images and closes the row, without a boundary. -/
theorem cardGallery_no_break_after_last :
    cardGallery Fmt.sample (.obj [("images", .arr sampleImages3)])
      ≠ .ret (galleryFrame
          (renderAfter (fun j => decide (j % 3 = 2)) 0 (sampleImages3.map (imageMarkup Fmt.sample)))
          none) [] ∧
    cardGallery Fmt.sample (.obj [("images", .arr sampleImages3)])
      = .ret (galleryFrame (concatAll (sampleImages3.map (imageMarkup Fmt.sample))) none) [] := by
  decide

/-- C13, amended: for a gallery payload whose `images` is a sequence of `n`
well-formed image objects and whose caption is absent or a string,
`cardGallery` returns the images with a row boundary right after the image of
index `i` exactly when `i mod 3 = 2` and another image follows (`i + 1 < n`),
that is between the images 2 and 3, 5 and 6, 8 and 9, and so on; three images
are followed by no boundary, four images have one between the third and the
fourth. -/
theorem cardGallery_breaks (f : Fmt) (m : List (String × Value)) (imgs : List Value)
    (him : m.lookup "images" = some (.arr imgs))
    (hwf : ∀ e ∈ imgs, wellFormedImage e = true)
    (hcap : captionWellTyped m = true) :
    cardGallery f (.obj m)
      = .ret (galleryFrame
          (renderAfter (fun j => decide (j % 3 = 2 ∧ j + 1 < imgs.length)) 0
            (imgs.map (imageMarkup f)))
          (galleryCaption m)) [] ∧
    (∀ a b c : Value, imgs = [a, b, c] →
      cardGallery f (.obj m)
        = .ret (galleryFrame
            (imageMarkup f a ++ (imageMarkup f b ++ imageMarkup f c)) (galleryCaption m)) []) ∧
    (∀ a b c d : Value, imgs = [a, b, c, d] →
      cardGallery f (.obj m)
        = .ret (galleryFrame
            (imageMarkup f a ++ (imageMarkup f b ++ (imageMarkup f c ++ (rowBreak ++
              imageMarkup f d)))) (galleryCaption m)) []) := by
  have hadm : ∀ e ∈ imgs, admissibleEntry e = true := by
    intro e he
    have := hwf e he
    cases e <;> first | exact this | simp [wellFormedImage] at this
  have hret := cardGallery_eq f m imgs him hadm hcap
  refine ⟨?_, ?_, ?_⟩
  · rw [hret, renderBefore_zero_after, List.length_map]
  · rintro a b c rfl
    rw [hret]
    simp [renderBefore]
  · rintro a b c d rfl
    rw [hret]
    simp [renderBefore]

/-- Witness of the amended C13 on seven sample images. -/
theorem cardGallery_breaks_witness :
    cardGallery Fmt.sample (.obj [("images", .arr sampleImages7)])
      = .ret (galleryFrame
          (renderAfter (fun j => decide (j % 3 = 2 ∧ j + 1 < sampleImages7.length)) 0
            (sampleImages7.map (imageMarkup Fmt.sample)))
          (galleryCaption [("images", .arr sampleImages7)])) [] :=
  (cardGallery_breaks Fmt.sample [("images", .arr sampleImages7)] sampleImages7 rfl
    (by decide) (by decide)).1

set_option maxRecDepth 100000 in
/-- C14, as stated, fails: of five entries the second is not an object; the
claim puts the four rendered images into rows of 3 and 1, `cardGallery` puts
them into rows of 2 and 2, the skipped entry taking a place in the first
row. -/
theorem cardGallery_short_row_after_skip :
    cardGallery Fmt.sample (.obj [("images", .arr sampleEntries5)])
      ≠ .ret (galleryFrame
          (renderRows (rowsOf3
            ((sampleEntries5.filter Value.isObject).map (imageMarkup Fmt.sample))))
          none) [] ∧
    cardGallery Fmt.sample (.obj [("images", .arr sampleEntries5)])
      = .ret (galleryFrame
          (renderRows
            [[imageMarkup Fmt.sample (sampleImage "a.png"),
                imageMarkup Fmt.sample (sampleImage "c.png")],
              [imageMarkup Fmt.sample (sampleImage "d.png"),
                imageMarkup Fmt.sample (sampleImage "e.png")]])
          none) [] := by
  decide

/-- C14, amended: for a gallery payload whose `images` is a sequence of
well-formed image objects and entries that are not objects and whose caption
is absent or a string, `cardGallery` writes nothing for an entry that is not
an object and cuts the sequence of entries, skipped ones counted, into rows of
three positions: each row div holds the images among three consecutive
entries, at most 3, and fewer than 3 in every row that contains a skipped
entry. -/
theorem cardGallery_positional_rows (f : Fmt) (m : List (String × Value))
    (entries : List Value)
    (him : m.lookup "images" = some (.arr entries))
    (hall : ∀ e ∈ entries, admissibleEntry e = true)
    (hcap : captionWellTyped m = true) :
    cardGallery f (.obj m)
      = .ret (galleryFrame
          (renderRows ((rowsOf3 entries).map
            (fun row => (row.filter Value.isObject).map (imageMarkup f))))
          (galleryCaption m)) [] ∧
    (∀ e ∈ entries, e.isObject = false → imageMarkup f e = "") ∧
    (rowsOf3 entries).flatten = entries ∧
    (∀ row ∈ (rowsOf3 entries).dropLast, row.length = 3) ∧
    (∀ row ∈ rowsOf3 entries,
      ((row.filter Value.isObject).map (imageMarkup f)).length ≤ 3) ∧
    (∀ row ∈ rowsOf3 entries, (∃ e ∈ row, e.isObject = false) →
      ((row.filter Value.isObject).map (imageMarkup f)).length < 3) := by
  have hrow : ∀ row : List Value,
      concatAll (row.map (imageMarkup f))
        = concatAll ((row.filter Value.isObject).map (imageMarkup f)) := by
    intro row
    induction row with
    | nil => rfl
    | cons e rest ih =>
      cases he : e.isObject
      · simp [List.filter, he, concatAll, imageMarkup_of_not_object f e he, ih]
      · simp [List.filter, he, concatAll, ih]
  have hrows : renderBefore 0 (entries.map (imageMarkup f))
      = renderRows ((rowsOf3 entries).map
          (fun row => (row.filter Value.isObject).map (imageMarkup f))) := by
    rw [renderBefore_zero_rows, rowsOf3_map]
    unfold renderRows
    rw [List.map_map, List.map_map]
    have hmap : (rowsOf3 entries).map (concatAll ∘ List.map (imageMarkup f))
        = (rowsOf3 entries).map
            (concatAll ∘ fun row => (row.filter Value.isObject).map (imageMarkup f)) :=
      List.map_congr_left (fun row _ => hrow row)
    rw [hmap]
  refine ⟨?_, fun e _ he => imageMarkup_of_not_object f e he, rowsOf3_flatten _,
    rowsOf3_dropLast _, ?_, ?_⟩
  · rw [cardGallery_eq f m entries him hall hcap, hrows]
  · intro row hrow
    rw [List.length_map]
    exact le_trans (List.length_filter_le _ _) (rowsOf3_row_length entries row hrow).2
  · rintro row hrow ⟨e, he, hobj⟩
    rw [List.length_map]
    have hlt : (row.filter Value.isObject).length < row.length :=
      List.length_filter_lt_length_iff_exists.2 ⟨e, he, by simp [hobj]⟩
    exact lt_of_lt_of_le hlt (rowsOf3_row_length entries row hrow).2

/-- Witness of the amended C14 on the five sample entries. -/
theorem cardGallery_positional_rows_witness :
    cardGallery Fmt.sample (.obj [("images", .arr sampleEntries5)])
      = .ret (galleryFrame
          (renderRows ((rowsOf3 sampleEntries5).map
            (fun row => (row.filter Value.isObject).map (imageMarkup Fmt.sample))))
          (galleryCaption [("images", .arr sampleEntries5)])) [] :=
  (cardGallery_positional_rows Fmt.sample [("images", .arr sampleEntries5)] sampleEntries5 rfl
    (by decide) (by decide)).1

/-! ## The bookmark card -/

/-- Bookmark metadata with the three required fields. -/
def sampleBookmarkMeta : List (String × Value) :=
  [("url", .str "https://example.com"), ("title", .str "Example"),
    ("description", .str "An example")]

/-- The figure `cardBookmark` returns for `sampleBookmarkMeta` alone. -/
def sampleBookmarkFigure : String :=
  "<figure>\n\t     <a href=\"https://example.com\">\n\t       <div>\n\t         <div>Example</div>\n\t         <div>An example</div>\n\t         <div>\n\t           \n\t           \n\t           \n\t         </div>\n\t       </div>\n\t       \n\t     </a>\n\t     \n\t   </figure>"

set_option maxRecDepth 100000 in
/-- C15: on the object payload whose metadata holds string `url`, `title` and
`description` and an `icon` that is null, `cardBookmark` panics on the
assertion `iconinfo.(string)` instead of returning a figure; the same payload
without the `icon` gives the figure, and a payload without `metadata`, with a
`metadata` that is not an object, or without one of the three keys gives the
empty string. -/
theorem cardBookmark_icon_null_panics :
    cardBookmark Fmt.sample (.obj [("metadata", .obj (sampleBookmarkMeta ++ [("icon", .null)]))])
      = .panic [] ∧
    cardBookmark Fmt.sample (.obj [("metadata", .obj sampleBookmarkMeta)])
      = .ret sampleBookmarkFigure [] ∧
    cardBookmark Fmt.sample (.obj []) = .ret "" [] ∧
    cardBookmark Fmt.sample (.obj [("metadata", .str "x")]) = .ret "" [] ∧
    cardBookmark Fmt.sample (.obj [("metadata", .obj [("url", .str "u"), ("title", .str "t")])])
      = .ret "" [] := by
  decide

set_option maxRecDepth 100000 in
/-- C16: a null value is treated as absent for `author`, `publisher` and the
top-level `caption`, which are guarded by a comparison with nil, but not for
`thumbnail` and `icon`: with a null `thumbnail`, or a null `icon`,
`cardBookmark` panics instead of returning the figure without that part. -/
theorem cardBookmark_null_optional_parts :
    cardBookmark Fmt.sample
        (.obj [("metadata", .obj (sampleBookmarkMeta ++ [("thumbnail", .null)]))])
      = .panic [] ∧
    cardBookmark Fmt.sample (.obj [("metadata", .obj (sampleBookmarkMeta ++ [("icon", .null)]))])
      = .panic [] ∧
    cardBookmark Fmt.sample (.obj [("metadata", .obj (sampleBookmarkMeta ++ [("author", .null)]))])
      = .ret sampleBookmarkFigure [] ∧
    cardBookmark Fmt.sample
        (.obj [("metadata", .obj (sampleBookmarkMeta ++ [("publisher", .null)]))])
      = .ret sampleBookmarkFigure [] ∧
    cardBookmark Fmt.sample
        (.obj [("metadata", .obj sampleBookmarkMeta), ("caption", .null)])
      = .ret sampleBookmarkFigure [] := by
  decide

/-! ## The markdown, html and embed cards -/

/-- C17: `cardMarkdown` returns the string `markdown` followed by one newline
when the payload is an object with a string `markdown` field, and the empty
string when the field is absent or the payload is not an object; the names
`markdown` and `card-markdown` are both registered to `cardMarkdown`, so the
two names give the same output on every payload. -/
theorem cardMarkdown_contract (f : Fmt) (r : String) (payload : Value) :
    (∀ (m : List (String × Value)) (s : String), payload = .obj m →
      m.lookup "markdown" = some (.str s) → cardMarkdown payload = .ret (s ++ "\n") []) ∧
    (∀ m : List (String × Value), payload = .obj m → m.lookup "markdown" = none →
      cardMarkdown payload = .ret "" []) ∧
    (payload.asMap = none → cardMarkdown payload = .ret "" []) ∧
    (post.mobiledocMarkdown.md f r).renderCard "markdown" payload
      = some (cardMarkdown payload) ∧
    (post.mobiledocMarkdown.md f r).renderCard "card-markdown" payload
      = some (cardMarkdown payload) ∧
    (post.mobiledocMarkdown.md f r).renderCard "markdown" payload
      = (post.mobiledocMarkdown.md f r).renderCard "card-markdown" payload := by
  refine ⟨?_, ?_, ?_, rfl, rfl, rfl⟩
  · rintro m s rfl hm
    simp [cardMarkdown, Value.asMap, Value.asString, hm]
  · rintro m rfl hm
    simp [cardMarkdown, Value.asMap, hm]
  · intro h
    simp [cardMarkdown, h]

/-- Witness of C17: a markdown payload, an empty object and a payload that is
a string. -/
theorem cardMarkdown_contract_witness :
    cardMarkdown (.obj [("markdown", .str "# Title")]) = .ret ("# Title" ++ "\n") [] ∧
    cardMarkdown (.obj []) = .ret "" [] ∧
    cardMarkdown (.str "x") = .ret "" [] :=
  ⟨(cardMarkdown_contract Fmt.sample "" (.obj [("markdown", .str "# Title")])).1
      [("markdown", .str "# Title")] "# Title" rfl rfl,
    (cardMarkdown_contract Fmt.sample "" (.obj [])).2.1 [] rfl rfl,
    (cardMarkdown_contract Fmt.sample "" (.str "x")).2.2.1 rfl⟩

/-- C18: on every payload `cardEmbed` and `cardHTML` return the same string or
both panic: the string `html` unchanged when it is a string, the empty string
when the field is absent or the payload is not an object.  `cardHTML` never
logs; `cardEmbed` logs exactly one diagnostic when the payload is an object
without `html`, and nothing otherwise. -/
theorem cardEmbed_cardHTML (payload : Value) :
    (cardEmbed payload).value = (cardHTML payload).value ∧
    (cardHTML payload).diagnostics = [] ∧
    (∀ m : List (String × Value), payload = .obj m → m.lookup "html" = none →
      cardEmbed payload = .ret "" ["ERROR embed card missing html"] ∧
      cardHTML payload = .ret "" []) ∧
    ((¬ ∃ m : List (String × Value), payload = .obj m ∧ m.lookup "html" = none) →
      cardEmbed payload = cardHTML payload) ∧
    (∀ (m : List (String × Value)) (s : String), payload = .obj m →
      m.lookup "html" = some (.str s) → cardHTML payload = .ret s []) ∧
    (payload.asMap = none → cardHTML payload = .ret "" []) := by
  refine ⟨?_, ?_, ?_, ?_, ?_, ?_⟩
  · cases payload with
    | obj m =>
      cases hm : m.lookup "html" with
      | none => simp [cardEmbed, cardHTML, Value.asMap, hm, Outcome.value]
      | some html =>
        cases hs : html.asString <;>
          simp [cardEmbed, cardHTML, Value.asMap, hm, hs, Outcome.value]
    | _ => rfl
  · cases payload with
    | obj m =>
      cases hm : m.lookup "html" with
      | none => simp [cardHTML, Value.asMap, hm, Outcome.diagnostics]
      | some html =>
        cases hs : html.asString <;>
          simp [cardHTML, Value.asMap, hm, hs, Outcome.diagnostics]
    | _ => rfl
  · rintro m rfl hm
    simp [cardEmbed, cardHTML, Value.asMap, hm]
  · intro h
    cases payload with
    | obj m =>
      cases hm : m.lookup "html" with
      | none => exact absurd ⟨m, rfl, hm⟩ h
      | some html => simp [cardEmbed, cardHTML, Value.asMap, hm]
    | _ => rfl
  · rintro m s rfl hm
    simp [cardHTML, Value.asMap, Value.asString, hm]
  · intro h
    simp [cardHTML, h]

/-- Witness of C18: an object without `html`, an object with it, and a payload
that is not an object. -/
theorem cardEmbed_cardHTML_witness :
    (cardEmbed (.obj []) = .ret "" ["ERROR embed card missing html"] ∧
      cardHTML (.obj []) = .ret "" []) ∧
    cardEmbed (.obj [("html", .str "<b>x</b>")]) = cardHTML (.obj [("html", .str "<b>x</b>")]) ∧
    cardHTML (.obj [("html", .str "<b>x</b>")]) = .ret "<b>x</b>" [] ∧
    cardHTML .null = .ret "" [] :=
  ⟨(cardEmbed_cardHTML (.obj [])).2.2.1 [] rfl rfl,
    (cardEmbed_cardHTML (.obj [("html", .str "<b>x</b>")])).2.2.2.1
      (by rintro ⟨m, hm, hnone⟩; cases hm; exact absurd hnone (by simp [List.lookup])),
    (cardEmbed_cardHTML (.obj [("html", .str "<b>x</b>")])).2.2.2.2.1
      [("html", .str "<b>x</b>")] "<b>x</b>" rfl rfl,
    (cardEmbed_cardHTML .null).2.2.2.2.2 rfl⟩

/-! ## The document renderer -/

/-- An engine that fails on every document after a renderer logged once. -/
def Engine.failing : Engine :=
  fun _ => { written := "partial", log := ["ERROR image card missing source"],
             ending := .error "unexpected end of JSON input" }

/-- An engine that returns the source of the document. -/
def Engine.echo : Engine :=
  fun md => { written := md.source, log := [], ending := .ok }

/-- A post with the id `1` (as JSON text) and a document. -/
def sampleDocPost : post :=
  { post.zero with ID := [49], MobileDoc := "doc" }

/-- C19: `mobiledocMarkdown` localizes a render failure.  When `MobileDoc` is
empty the result is the empty string whatever the engine is (it is not
called) and nothing is logged; when `MobileDoc` is not empty and the engine,
run on the document with the cards and atoms registered, returns an error, the
result is the empty string and one diagnostic naming the post id and the error
is added to the log; when the engine succeeds the result is what the engine
wrote.  The id is named by its text: an id whose bytes are the ASCII string
`s` appears as `s`, the id `1` as `1`, and a quoted id with a non-ASCII letter
as that quoted text. -/
theorem mobiledocMarkdown_contract (p : post) (f : Fmt) (Render : Engine) :
    (p.MobileDoc = "" → ∀ Render' : Engine, p.mobiledocMarkdown f Render' = .ret "" []) ∧
    (p.MobileDoc ≠ "" → ∀ err : String,
      (Render (post.mobiledocMarkdown.md f p.MobileDoc)).ending = .error err →
      p.mobiledocMarkdown f Render
        = .ret "" ((Render (post.mobiledocMarkdown.md f p.MobileDoc)).log
            ++ ["ERROR rendering post " ++ RawMessage.text p.ID ++ " (" ++ err ++ ")"])) ∧
    (∀ s : String, (∀ c ∈ s.data, c.toNat < 128) →
      p.ID = s.data.map (fun c => UInt8.ofNat c.toNat) →
      p.MobileDoc ≠ "" → ∀ err : String,
      (Render (post.mobiledocMarkdown.md f p.MobileDoc)).ending = .error err →
      p.mobiledocMarkdown f Render
        = .ret "" ((Render (post.mobiledocMarkdown.md f p.MobileDoc)).log
            ++ ["ERROR rendering post " ++ s ++ " (" ++ err ++ ")"])) ∧
    (p.MobileDoc ≠ "" →
      (Render (post.mobiledocMarkdown.md f p.MobileDoc)).ending = .ok →
      p.mobiledocMarkdown f Render
        = .ret (Render (post.mobiledocMarkdown.md f p.MobileDoc)).written
            (Render (post.mobiledocMarkdown.md f p.MobileDoc)).log) ∧
    sampleDocPost.mobiledocMarkdown f Engine.failing
      = .ret "" ["ERROR image card missing source",
          "ERROR rendering post 1 (unexpected end of JSON input)"] ∧
    ({ sampleDocPost with ID := [34, 195, 169, 34] }).mobiledocMarkdown f Engine.failing
      = .ret "" ["ERROR image card missing source",
          "ERROR rendering post \"é\" (unexpected end of JSON input)"] ∧
    sampleDocPost.mobiledocMarkdown f Engine.echo = .ret "doc" [] := by
  refine ⟨?_, ?_, ?_, ?_, ?_, ?_, ?_⟩
  · intro h Render'
    simp [post.mobiledocMarkdown, h]
  · intro h err herr
    simp [post.mobiledocMarkdown, h, herr]
  · intro s hs hid h err herr
    simp [post.mobiledocMarkdown, h, herr, hid, RawMessage_text_ascii s hs]
  · intro h hok
    simp [post.mobiledocMarkdown, h, hok]
  · have hid : RawMessage.text sampleDocPost.ID = "1" := by decide
    have hdoc : sampleDocPost.MobileDoc ≠ "" := by decide
    simp only [post.mobiledocMarkdown, if_neg hdoc, Engine.failing, hid]
    decide
  · have hid : RawMessage.text [34, 195, 169, 34] = "\"é\"" := by decide
    have hdoc : sampleDocPost.MobileDoc ≠ "" := by decide
    simp only [post.mobiledocMarkdown, if_neg hdoc, Engine.failing, hid]
    decide
  · have hdoc : sampleDocPost.MobileDoc ≠ "" := by decide
    simp only [post.mobiledocMarkdown, if_neg hdoc, Engine.echo]
    rfl

/-- Witness of C19: a failing engine on the post with id `1`, a succeeding
engine, and a post without a document. -/
theorem mobiledocMarkdown_contract_witness :
    sampleDocPost.mobiledocMarkdown Fmt.sample Engine.failing
      = .ret "" ((Engine.failing (post.mobiledocMarkdown.md Fmt.sample sampleDocPost.MobileDoc)).log
          ++ ["ERROR rendering post " ++ "1" ++ " ("
            ++ "unexpected end of JSON input" ++ ")"]) ∧
    sampleDocPost.mobiledocMarkdown Fmt.sample Engine.echo
      = .ret (Engine.echo (post.mobiledocMarkdown.md Fmt.sample sampleDocPost.MobileDoc)).written
          (Engine.echo (post.mobiledocMarkdown.md Fmt.sample sampleDocPost.MobileDoc)).log ∧
    samplePost.mobiledocMarkdown Fmt.sample Engine.failing = .ret "" [] :=
  ⟨(mobiledocMarkdown_contract sampleDocPost Fmt.sample Engine.failing).2.2.1 "1"
      (by decide) (by decide) (by decide) "unexpected end of JSON input" rfl,
    (mobiledocMarkdown_contract sampleDocPost Fmt.sample Engine.echo).2.2.2.1 (by decide) rfl,
    (mobiledocMarkdown_contract samplePost Fmt.sample Engine.echo).1 rfl Engine.failing⟩

/-! ## The path resolver -/

/-- The site whose working directory is `/srv/site`. -/
def Site.sample : Site :=
  Site.rootedAt "/srv/site"

/-- A configuration whose content directory is `content`. -/
def Viper.sample : Viper :=
  { GetString := fun key => if key = "contentDir" then "content" else "" }

/-- C20, as stated, fails: the page with the slug `a/../b` is not written to
the content root followed by the slug as given; the join resolves the `..`
segment and the path is that of the slug `b`. -/
theorem path_resolves_dot_segments :
    ({ post.zero with IsPage := true, Slug := "a/../b" }).path Site.sample Viper.sample
      = "/srv/site/content/b.md" ∧
    ({ post.zero with IsPage := true, Slug := "a/../b" }).path Site.sample Viper.sample
      ≠ Site.sample.AbsPathify (Viper.sample.GetString "contentDir") ++ "/" ++ "a/../b" ++ ".md" ∧
    ({ post.zero with IsPage := true, Slug := "a/../b" }).path Site.sample Viper.sample
      = ({ post.zero with IsPage := true, Slug := "b" }).path Site.sample Viper.sample := by
  decide

/-- C20, amended: `path` returns the site's absolute form of
`path.Join(contentRoot, <slug>.md)` for a page and of
`path.Join(contentRoot, "post", <slug>.md)` otherwise; the slug is neither
checked nor escaped, but the join cleans the path.  When the content root is a
clean path and the slug has no slash, the joined path is literally
`<contentRoot>/<slug>.md`, respectively `<contentRoot>/post/<slug>.md`: with
the content root `content` the page `about` goes to `content/about.md` and the
post `hello` to `content/post/hello.md`.  A slug with dot segments is
resolved: `a/../b` goes to `content/b.md` and `../../etc/passwd` leaves the
content root. -/
theorem path_contract (p : post) (site : Site) (viper : Viper) :
    (p.IsPage = true →
      p.path site viper
        = site.AbsPathify (path.Join [viper.GetString "contentDir", p.Slug ++ ".md"])) ∧
    (p.IsPage = false →
      p.path site viper
        = site.AbsPathify (path.Join [viper.GetString "contentDir", "post", p.Slug ++ ".md"])) ∧
    (∀ (rooted : Bool) (segs : List (List Char)), segs ≠ [] →
      (∀ seg ∈ segs, plainSegment seg = true) →
      viper.GetString "contentDir" = pathOfSegments rooted segs → '/' ∉ p.Slug.data →
      (p.IsPage = true →
        p.path site viper
          = site.AbsPathify (viper.GetString "contentDir" ++ "/" ++ (p.Slug ++ ".md"))) ∧
      (p.IsPage = false →
        p.path site viper
          = site.AbsPathify
              (viper.GetString "contentDir" ++ "/" ++ "post" ++ "/" ++ (p.Slug ++ ".md")))) ∧
    ({ post.zero with IsPage := true, Slug := "about" }).path site Viper.sample
      = site.AbsPathify "content/about.md" ∧
    ({ post.zero with IsPage := false, Slug := "hello" }).path site Viper.sample
      = site.AbsPathify "content/post/hello.md" ∧
    ({ post.zero with IsPage := true, Slug := "a/../b" }).path site Viper.sample
      = site.AbsPathify "content/b.md" ∧
    ({ post.zero with IsPage := true, Slug := "../../etc/passwd" }).path site Viper.sample
      = site.AbsPathify "../etc/passwd.md" ∧
    ({ post.zero with IsPage := true, Slug := "about" }).path Site.sample Viper.sample
      = "/srv/site/content/about.md" ∧
    ({ post.zero with IsPage := false, Slug := "hello" }).path Site.sample Viper.sample
      = "/srv/site/content/post/hello.md" ∧
    ({ post.zero with IsPage := true, Slug := "../../etc/passwd" }).path Site.sample
        Viper.sample
      = "/srv/etc/passwd.md" := by
  have j1 : path.Join ["content", "about" ++ ".md"] = "content/about.md" := by decide
  have j2 : path.Join ["content", "post", "hello" ++ ".md"] = "content/post/hello.md" := by
    decide
  have j3 : path.Join ["content", "a/../b" ++ ".md"] = "content/b.md" := by decide
  have j4 : path.Join ["content", "../../etc/passwd" ++ ".md"] = "../etc/passwd.md" := by
    decide
  have hv : Viper.sample.GetString "contentDir" = "content" := by decide
  refine ⟨?_, ?_, ?_, ?_, ?_, ?_, ?_, by decide, by decide, by decide⟩
  · intro h
    simp [post.path, h]
  · intro h
    simp [post.path, h]
  · intro rooted segs hne hplain hroot hslug
    constructor
    · intro h
      simp only [post.path, h, if_true]
      rw [hroot, Join_clean_root rooted segs hne hplain _ (plainSegment_file p.Slug hslug)]
    · intro h
      simp only [post.path, h, Bool.false_eq_true, if_false]
      rw [hroot, Join_clean_root_dir rooted segs hne hplain "post" _ (by decide)
        (plainSegment_file p.Slug hslug)]
  · simp only [post.path, if_true, hv, j1]
  · simp only [post.path, Bool.false_eq_true, if_false, hv, j2]
  · simp only [post.path, if_true, hv, j3]
  · simp only [post.path, if_true, hv, j4]

/-- Witness of the amended C20: the page `about` and the post `hello` under
the content root `content`. -/
theorem path_contract_witness :
    ({ post.zero with IsPage := true, Slug := "about" }).path Site.sample Viper.sample
      = Site.sample.AbsPathify (Viper.sample.GetString "contentDir" ++ "/" ++ ("about" ++ ".md")) ∧
    ({ post.zero with IsPage := false, Slug := "hello" }).path Site.sample Viper.sample
      = Site.sample.AbsPathify
          (Viper.sample.GetString "contentDir" ++ "/" ++ "post" ++ "/" ++ ("hello" ++ ".md")) :=
  ⟨((path_contract { post.zero with IsPage := true, Slug := "about" } Site.sample
      Viper.sample).2.2.1 false ["content".data] (by decide) (by decide) (by decide)
      (by decide)).1 rfl,
    ((path_contract { post.zero with IsPage := false, Slug := "hello" } Site.sample
      Viper.sample).2.2.1 false ["content".data] (by decide) (by decide) (by decide)
      (by decide)).2 rfl⟩

end ghostToHugo
